import Mathlib

/-!
go.uik: Foundation event routing, compositing and frame pacing

A shallow embedding of `foundation.go` and of the drawing loop of `wfound.go`.

* A `*Block` is `Option Nat`: `none` is the nil pointer, `some i` the block stored at
  index `i` of the block table of the `World`.  A `*Foundation` is the same over the
  table of foundations.
* Go maps are functions into `Option` (`none` = key absent).
* A channel send is recorded in a log kept with the receiver; closing a nil or an
  already closed channel, sending on a closed channel and dereferencing a nil block
  panic, and an operation that panics returns `none`.
* Coordinates are `float64` in the source.  The scalar type `S` is left abstract, with
  its subtraction and zero, and the geometry and drawing packages are taken as the
  parameters of `Ext`.
-/

namespace Uik

/-- The type geom.Coord. -/
structure Coord (S : Type) where
  X : S
  Y : S
deriving DecidableEq, Repr

/-- The type geom.Rect. -/
structure Rect (S : Type) where
  Min : Coord S
  Max : Coord S
deriving DecidableEq, Repr

/-- The type image.Point. -/
structure Point where
  X : Int
  Y : Int
deriving DecidableEq, Repr

/-- The type image.Rectangle. -/
structure Rectangle where
  Min : Point
  Max : Point
deriving DecidableEq, Repr

/-- The compositing operators of image/draw. -/
inductive Op where
  | Over
  | Src
deriving DecidableEq, Repr

/-- What the source uses from outside `foundation.go` and `wfound.go`: the geometry
package, image/draw, and the buffer methods of `Block` (block.go is not part of the
sources at hand).  `CoordEq` is Go's `==` on geom.Coord. -/
structure Ext (S I : Type) where
  ContainsCoord : Rect S → Coord S → Bool
  CoordEq : Coord S → Coord S → Bool
  PrepareBuffer : Coord S → Option I → I
  DoPaint : Coord S → I → I
  RectangleForRect : Rect S → Rectangle
  Bounds : I → Rectangle
  Draw : I → Rectangle → I → Point → Op → I

/-- A pointer to a Block; `none` is nil. -/
abbrev BlockPtr := Option Nat

/-- A pointer to a Foundation; `none` is nil. -/
abbrev FoundPtr := Option Nat

/-- The type wde.Button. -/
abbrev Button := Int

structure RedrawEvent (S : Type) where
  Bounds : Rect S
deriving DecidableEq, Repr

structure MouseDownEvent (S : Type) where
  Which : Button
  Where : Point
  Loc : Coord S
deriving DecidableEq, Repr

structure MouseUpEvent (S : Type) where
  Which : Button
  Where : Point
  Loc : Coord S
deriving DecidableEq, Repr

structure ResizeEvent (S : Type) where
  Width : Int
  Height : Int
  Size : Coord S
deriving DecidableEq, Repr

/-- What travels on a block's `allEventsIn` channel. -/
inductive Event (S : Type) where
  | down : MouseDownEvent S → Event S
  | up : MouseUpEvent S → Event S
  | close : Event S
deriving DecidableEq, Repr

/-- The fields of Block that the two files read or write.  `allEventsIn` and `Redraw`
hold what was sent on the channel of that name, oldest first; `Compositor` is the
channel held by the field, nil when `none`. -/
structure Block (S I : Type) where
  Parent : FoundPtr
  Size : Coord S
  Buffer : Option I
  Compositor : Option Nat
  Redraw : List (RedrawEvent S)
  allEventsIn : List (Event S)

/-- The type Foundation, with its embedded Block. -/
structure Foundation (S I : Type) extends Block S I where
  Children : List BlockPtr
  ChildrenBounds : BlockPtr → Option (Rect S)
  ChildrenLastBuffers : BlockPtr → Option I
  DragOriginBlocks : Button → Option (List BlockPtr)
  KeyboardBlock : BlockPtr

/-- The heap: the blocks, the foundations, the channels closed so far, the next channel
`make` returns, the forwarding goroutines PlaceBlock started (channel read, block,
foundation) and the CompositeRequests sent on Compositor channels (channel, buffer). -/
structure World (S I : Type) where
  blocks : Nat → Block S I
  founds : Nat → Foundation S I
  closed : List Nat
  nextChan : Nat
  forwarders : List (Nat × Nat × Nat)
  sent : List (Nat × Option I)

variable {S I : Type}

/-- Modelled from the spec: `RedrawEventChan.Stack` (not part of the sources at hand)
schedules a redraw of the given bounds; the model appends the event to what the channel
holds. -/
def RedrawEventChan.Stack (ch : List (RedrawEvent S)) (e : RedrawEvent S) :
    List (RedrawEvent S) :=
  ch ++ [e]

def World.setBlock (w : World S I) (i : Nat) (b : Block S I) : World S I :=
  { w with blocks := Function.update w.blocks i b }

def World.setFound (w : World S I) (f : Nat) (fd : Foundation S I) : World S I :=
  { w with founds := Function.update w.founds f fd }

/-- The Go statement `close(ch)`: a panic on a nil and on a closed channel. -/
def closeChan (w : World S I) (ch : Option Nat) : Option (World S I) :=
  match ch with
  | none => none
  | some c => if c ∈ w.closed then none else some { w with closed := c :: w.closed }

/-- The Go statement `ch <- CompositeRequest{Buffer: buf}` on a non-nil channel: a panic
when the channel is closed. -/
def sendComposite (w : World S I) (c : Nat) (buf : Option I) : Option (World S I) :=
  if c ∈ w.closed then none else some { w with sent := w.sent ++ [(c, buf)] }

/-- `Foundation.Initialize` on the fields of Foundation: empty maps. -/
def Foundation.Initialize (fd : Foundation S I) : Foundation S I :=
  { fd with
    ChildrenBounds := fun _ => none
    ChildrenLastBuffers := fun _ => none
    DragOriginBlocks := fun _ => none }

/-- `func (f *Foundation) RemoveBlock(b *Block)`. -/
def RemoveBlock (w : World S I) (f : Nat) (b : BlockPtr) : Option (World S I) :=
  match b with
  | none => none
  | some i =>
    if (w.blocks i).Parent ≠ some f then some w
    else
      match closeChan w (w.blocks i).Compositor with
      | none => none
      | some w1 =>
        let w2 := w1.setBlock i { w1.blocks i with Compositor := none }
        let fd := w2.founds f
        let w3 :=
          match fd.ChildrenBounds b with
          | some bounds =>
            w2.setFound f { fd with Redraw := RedrawEventChan.Stack fd.Redraw ⟨bounds⟩ }
          | none => w2
        let fd3 := w3.founds f
        let w4 := w3.setFound f
          { fd3 with ChildrenBounds := Function.update fd3.ChildrenBounds b none }
        some (w4.setBlock i { w4.blocks i with Parent := none })

/-- `func (f *Foundation) PlaceBlock(b *Block, bounds geom.Rect)`. -/
def PlaceBlock (w : World S I) (f : Nat) (b : BlockPtr) (bounds : Rect S) :
    Option (World S I) :=
  match b with
  | none => none
  | some i =>
    let w1? : Option (World S I) :=
      match (w.blocks i).Parent with
      | none =>
        let fd := w.founds f
        let wa := w.setFound f { fd with Children := fd.Children ++ [b] }
        some (wa.setBlock i { wa.blocks i with Parent := some f })
      | some p =>
        if p ≠ f then
          match RemoveBlock w p b with
          | none => none
          | some wa => some (wa.setBlock i { wa.blocks i with Parent := some f })
        else some w
    match w1? with
    | none => none
    | some w1 =>
      let fd := w1.founds f
      let w2 := w1.setFound f
        { fd with ChildrenBounds := Function.update fd.ChildrenBounds b (some bounds) }
      let c := w2.nextChan
      let w3 : World S I := { w2 with nextChan := c + 1 }
      let w4 := w3.setBlock i { w3.blocks i with Compositor := some c }
      let w5 : World S I := { w4 with forwarders := w4.forwarders ++ [(c, i, f)] }
      let fd5 := w5.founds f
      some (w5.setFound f { fd5 with Redraw := RedrawEventChan.Stack fd5.Redraw ⟨bounds⟩ })

/-- `func (f *Foundation) DoResizeEvent(e ResizeEvent)`. -/
def DoResizeEvent (x : Ext S I) (w : World S I) (f : Nat) (e : ResizeEvent S) :
    World S I :=
  let fd := w.founds f
  if x.CoordEq e.Size fd.Size then w
  else
    let w1 := w.setFound f { fd with Size := e.Size }
    let fd1 := w1.founds f
    w1.setFound f { fd1 with Buffer := none }

/-- The zero value of geom.Rect, which a map read gives for an absent key. -/
def zeroRect [Zero S] : Rect S := ⟨⟨0, 0⟩, ⟨0, 0⟩⟩

/-- The loop of BlocksForCoord over the remaining children, `bs` being the result so
far. -/
def BlocksForCoord.loop (x : Ext S I) (fd : Foundation S I) (p : Coord S) :
    List BlockPtr → List BlockPtr → List BlockPtr
  | [], bs => bs
  | bl :: rest, bs =>
    match fd.ChildrenBounds bl with
    | none => BlocksForCoord.loop x fd p rest bs
    | some bbs =>
      if x.ContainsCoord bbs p then BlocksForCoord.loop x fd p rest (bs ++ [bl])
      else BlocksForCoord.loop x fd p rest bs

/-- `func (f *Foundation) BlocksForCoord(p geom.Coord) (bs []*Block)`. -/
def BlocksForCoord (x : Ext S I) (fd : Foundation S I) (p : Coord S) : List BlockPtr :=
  BlocksForCoord.loop x fd p fd.Children []

/-- The loop of InvokeOnBlocksUnder over the remaining children; `foo` acts on the state
`σ` its closure captures. -/
def InvokeOnBlocksUnder.loop {σ : Type} (x : Ext S I) (fd : Foundation S I) (p : Coord S)
    (foo : BlockPtr → σ → σ) : List BlockPtr → σ → σ
  | [], st => st
  | bl :: rest, st =>
    match fd.ChildrenBounds bl with
    | none => InvokeOnBlocksUnder.loop x fd p foo rest st
    | some bbs =>
      if x.ContainsCoord bbs p then foo bl st
      else InvokeOnBlocksUnder.loop x fd p foo rest st

/-- `func (f *Foundation) InvokeOnBlocksUnder(p geom.Coord, foo func(*Block))`. -/
def InvokeOnBlocksUnder {σ : Type} (x : Ext S I) (fd : Foundation S I) (p : Coord S)
    (foo : BlockPtr → σ → σ) (st : σ) : σ :=
  InvokeOnBlocksUnder.loop x fd p foo fd.Children st

/-- The statement `b.allEventsIn <- ev` for the block at index `i`. -/
def World.sendEvent (w : World S I) (i : Nat) (ev : Event S) : World S I :=
  w.setBlock i { w.blocks i with allEventsIn := (w.blocks i).allEventsIn ++ [ev] }

/-- The closure DoMouseDownEvent passes to InvokeOnBlocksUnder; it captures `f` and the
event `e`, whose location it overwrites. -/
def DoMouseDownEvent.foo [Sub S] [Zero S] (f : Nat) (b : BlockPtr)
    (st : World S I × MouseDownEvent S) : World S I × MouseDownEvent S :=
  let w := st.1
  let e := st.2
  let bbs := ((w.founds f).ChildrenBounds b).getD zeroRect
  match b with
  | none => st
  | some i =>
    let fd := w.founds f
    let origins := ((fd.DragOriginBlocks e.Which).getD []) ++ [b]
    let w1 := w.setFound f
      { fd with DragOriginBlocks := Function.update fd.DragOriginBlocks e.Which (some origins) }
    let e1 : MouseDownEvent S := { e with Loc := ⟨e.Loc.X - bbs.Min.X, e.Loc.Y⟩ }
    let e2 : MouseDownEvent S := { e1 with Loc := ⟨e1.Loc.X, e1.Loc.Y - bbs.Min.Y⟩ }
    (w1.sendEvent i (Event.down e2), e2)

/-- `func (f *Foundation) DoMouseDownEvent(e MouseDownEvent)`. -/
def DoMouseDownEvent [Sub S] [Zero S] (x : Ext S I) (w : World S I) (f : Nat)
    (e : MouseDownEvent S) : World S I :=
  (InvokeOnBlocksUnder x (w.founds f) e.Loc (DoMouseDownEvent.foo f) (w, e)).1

/-- The closure DoMouseUpEvent passes to InvokeOnBlocksUnder; it captures `f`, the event
`e` and the map `touched`. -/
def DoMouseUpEvent.foo [Sub S] [Zero S] (f : Nat) (e : MouseUpEvent S) (b : BlockPtr)
    (st : World S I × (BlockPtr → Bool)) : World S I × (BlockPtr → Bool) :=
  let w := st.1
  let touched := Function.update st.2 b true
  let bbs := ((w.founds f).ChildrenBounds b).getD zeroRect
  match b with
  | some i =>
    let be : MouseUpEvent S :=
      { e with Loc := ⟨e.Loc.X - bbs.Min.X, e.Loc.Y - bbs.Min.Y⟩ }
    (w.sendEvent i (Event.up be), touched)
  | none => (w, touched)

/-- The loop of DoMouseUpEvent over the drag origins of the button. -/
def DoMouseUpEvent.origins [Sub S] [Zero S] (f : Nat) (e : MouseUpEvent S)
    (touched : BlockPtr → Bool) : World S I → List BlockPtr → Option (World S I)
  | w, [] => some w
  | w, origin :: rest =>
    if touched origin then DoMouseUpEvent.origins f e touched w rest
    else
      let obbs := ((w.founds f).ChildrenBounds origin).getD zeroRect
      let oe : MouseUpEvent S :=
        { e with Loc := ⟨e.Loc.X - obbs.Min.X, e.Loc.Y - obbs.Min.Y⟩ }
      match origin with
      | none => none
      | some i => DoMouseUpEvent.origins f e touched (w.sendEvent i (Event.up oe)) rest

/-- `func (f *Foundation) DoMouseUpEvent(e MouseUpEvent)`. -/
def DoMouseUpEvent [Sub S] [Zero S] (x : Ext S I) (w : World S I) (f : Nat)
    (e : MouseUpEvent S) : Option (World S I) :=
  let st := InvokeOnBlocksUnder x (w.founds f) e.Loc (DoMouseUpEvent.foo f e)
    (w, fun _ => false)
  let w1 := st.1
  let touched := st.2
  let w2? :=
    match (w1.founds f).DragOriginBlocks e.Which with
    | some origins => DoMouseUpEvent.origins f e touched w1 origins
    | none => some w1
  match w2? with
  | none => none
  | some w2 =>
    let fd := w2.founds f
    some (w2.setFound f
      { fd with DragOriginBlocks := Function.update fd.DragOriginBlocks e.Which none })

/-- The type CompositeBlockRequest: the buffer of the embedded CompositeRequest and the
block it comes from. -/
structure CompositeBlockRequest (I : Type) where
  Buffer : I
  Block : BlockPtr

/-- `func (f *Foundation) CompositeBlockBuffer(b *Block, buf image.Image) (composited bool)`. -/
def CompositeBlockBuffer (x : Ext S I) (w : World S I) (f : Nat) (b : BlockPtr) (buf : I) :
    World S I × Bool :=
  let fd := w.founds f
  match fd.ChildrenBounds b with
  | none => (w, false)
  | some bounds =>
    let w1 := w.setFound f { fd with Buffer := some (x.PrepareBuffer fd.Size fd.Buffer) }
    let fd1 := w1.founds f
    let w2 :=
      match fd1.Buffer with
      | some dst =>
        w1.setFound f
          { fd1 with Buffer := some (x.Draw dst (x.RectangleForRect bounds) buf ⟨0, 0⟩ Op.Over) }
      | none => w1
    (w2, true)

/-- The upward send that ends DoCompositeBlockRequest and DoRedraw. -/
def sendUp (w : World S I) (f : Nat) : Option (World S I) :=
  match (w.founds f).Compositor with
  | some c => sendComposite w c (w.founds f).Buffer
  | none => some w

/-- `func (f *Foundation) DoCompositeBlockRequest(cbr CompositeBlockRequest)`. -/
def DoCompositeBlockRequest (x : Ext S I) (w : World S I) (f : Nat)
    (cbr : CompositeBlockRequest I) : Option (World S I) :=
  let b := cbr.Block
  let fd := w.founds f
  let w1 := w.setFound f
    { fd with ChildrenLastBuffers := Function.update fd.ChildrenLastBuffers b (some cbr.Buffer) }
  let w2 := (CompositeBlockBuffer x w1 f b cbr.Buffer).1
  sendUp w2 f

/-- The loop of DoRedraw over the remaining children. -/
def DoRedraw.loop [Sub S] (x : Ext S I) (f : Nat) (e : RedrawEvent S) :
    World S I → List BlockPtr → Option (World S I)
  | w, [] => some w
  | w, child :: rest =>
    match (w.founds f).ChildrenBounds child with
    | none => DoRedraw.loop x f e w rest
    | some bbs =>
      let translatedDirty : Rect S :=
        ⟨⟨e.Bounds.Min.X - bbs.Min.X, e.Bounds.Min.Y - bbs.Min.Y⟩, e.Bounds.Max⟩
      match child with
      | none => none
      | some i =>
        let w1 := w.setBlock i
          { w.blocks i with
            Redraw := RedrawEventChan.Stack (w.blocks i).Redraw ⟨translatedDirty⟩ }
        let w2 :=
          match (w1.founds f).ChildrenLastBuffers child with
          | some buf => (CompositeBlockBuffer x w1 f child buf).1
          | none => w1
        DoRedraw.loop x f e w2 rest

/-- `func (f *Foundation) DoRedraw(e RedrawEvent)`. -/
def DoRedraw [Sub S] (x : Ext S I) (w : World S I) (f : Nat) (e : RedrawEvent S) :
    Option (World S I) :=
  let fd := w.founds f
  let w1 := w.setFound f
    { fd with Buffer := some (x.DoPaint fd.Size (x.PrepareBuffer fd.Size fd.Buffer)) }
  match DoRedraw.loop x f e w1 (w1.founds f).Children with
  | none => none
  | some w2 => sendUp w2 f

/-! ## The drawing loop of the window foundation -/

/-- The variables of `handleWindowDrawing` and what it does to the window: `screen` is
the image `wf.W.Screen()` returns, `flushed` the screens `wf.W.FlushImage()` presented,
oldest first, and `sleeps` counts the `go wf.SleepRepaint(FrameDelay)` started. -/
structure Drawing (I : Type) where
  waitingForRepaint : Bool
  newStuff : Bool
  screen : I
  flushed : List I
  sleeps : Nat

/-- What the `select` of `handleWindowDrawing` receives: a CompositeRequest with its
buffer on `wf.Compositor`, a value on `wf.waitForRepaint`, or the timer's signal on
`wf.doRepaintWindow`. -/
inductive DrawingMsg (I : Type) where
  | composite : I → DrawingMsg I
  | waitForRepaint : Bool → DrawingMsg I
  | doRepaintWindow : DrawingMsg I

/-- The closure `flush` of `handleWindowDrawing`. -/
def handleWindowDrawing.flush (d : Drawing I) : Drawing I :=
  let d1 := { d with flushed := d.flushed ++ [d.screen] }
  let d2 := { d1 with newStuff := false }
  let d3 := { d2 with waitingForRepaint := true }
  { d3 with sleeps := d3.sleeps + 1 }

/-- One iteration of the loop of `handleWindowDrawing`, on the message received. -/
def handleWindowDrawing.step (x : Ext S I) (d : Drawing I) : DrawingMsg I → Drawing I
  | DrawingMsg.composite buf =>
    let d1 := { d with screen := x.Draw d.screen (x.Bounds buf) buf ⟨0, 0⟩ Op.Src }
    if d1.waitingForRepaint then { d1 with newStuff := true }
    else handleWindowDrawing.flush d1
  | DrawingMsg.waitForRepaint v => { d with waitingForRepaint := v }
  | DrawingMsg.doRepaintWindow =>
    let d1 := { d with waitingForRepaint := false }
    if !d1.newStuff then d1 else handleWindowDrawing.flush d1

/-- The loop of `handleWindowDrawing` over the messages received, in order. -/
def handleWindowDrawing.run (x : Ext S I) (d : Drawing I) (ms : List (DrawingMsg I)) :
    Drawing I :=
  ms.foldl (handleWindowDrawing.step x) d

/-- The state in which `handleWindowDrawing` enters its loop. -/
def handleWindowDrawing.start (screen : I) : Drawing I :=
  { waitingForRepaint := false, newStuff := false, screen := screen, flushed := [], sleeps := 0 }

/-! ## Sequences of PlaceBlock and RemoveBlock -/

/-- A call of PlaceBlock or RemoveBlock: the foundation, the block and, for PlaceBlock,
the bounds. -/
inductive Call (S : Type) where
  | place : Nat → Nat → Rect S → Call S
  | remove : Nat → Nat → Call S

/-- The call applied to the world. -/
def Call.apply (w : World S I) : Call S → Option (World S I)
  | Call.place f b bounds => PlaceBlock w f (some b) bounds
  | Call.remove f b => RemoveBlock w f (some b)

/-- The calls applied one after the other; `none` when one of them panics. -/
def Call.run : World S I → List (Call S) → Option (World S I)
  | w, [] => some w
  | w, c :: cs =>
    match Call.apply w c with
    | none => none
    | some w1 => Call.run w1 cs

/-! ## Concrete data for the examples -/

/-- Integer coordinates, closed rectangles as in geom, and images that are the list of
what was drawn on them. -/
def sampleExt : Ext Int (List Nat) where
  ContainsCoord := fun r p =>
    decide (r.Min.X ≤ p.X) && decide (r.Min.Y ≤ p.Y) &&
      decide (p.X ≤ r.Max.X) && decide (p.Y ≤ r.Max.Y)
  CoordEq := fun a b => decide (a = b)
  PrepareBuffer := fun _ buf => buf.getD []
  DoPaint := fun _ img => img
  RectangleForRect := fun r => ⟨⟨r.Min.X, r.Min.Y⟩, ⟨r.Max.X, r.Max.Y⟩⟩
  Bounds := fun img => ⟨⟨0, 0⟩, ⟨img.length, img.length⟩⟩
  Draw := fun dst _ src _ _ => dst ++ src

/-- A block after Block.Initialize, not placed anywhere. -/
def sampleBlock : Block Int (List Nat) :=
  { Parent := none, Size := ⟨0, 0⟩, Buffer := none, Compositor := none, Redraw := [],
    allEventsIn := [] }

/-- A foundation after Foundation.Initialize. -/
def sampleFoundation : Foundation Int (List Nat) :=
  Foundation.Initialize
    { toBlock := sampleBlock, Children := [], ChildrenBounds := fun _ => none,
      ChildrenLastBuffers := fun _ => none, DragOriginBlocks := fun _ => none,
      KeyboardBlock := none }

/-- A world of initialized foundations and of blocks without a parent. -/
def sampleWorld : World Int (List Nat) :=
  { blocks := fun _ => sampleBlock, founds := fun _ => sampleFoundation, closed := [],
    nextChan := 0, forwarders := [], sent := [] }

/-! ## Auxiliary definitions for the statements -/

/-- The test both hit-testing loops apply to a child: it has bounds and they contain
the point. -/
def struck (x : Ext S I) (fd : Foundation S I) (p : Coord S) (bl : BlockPtr) : Bool :=
  match fd.ChildrenBounds bl with
  | none => false
  | some bbs => x.ContainsCoord bbs p

/-- The messages all arrive inside one pacing window: none is the timer's signal, and
each CompositeRequest arrives while waitingForRepaint is true. -/
def handleWindowDrawing.inWindow (x : Ext S I) : Drawing I → List (DrawingMsg I) → Bool
  | _, [] => true
  | d, DrawingMsg.composite buf :: ms =>
    d.waitingForRepaint &&
      handleWindowDrawing.inWindow x (handleWindowDrawing.step x d (DrawingMsg.composite buf)) ms
  | d, DrawingMsg.waitForRepaint v :: ms =>
    handleWindowDrawing.inWindow x (handleWindowDrawing.step x d (DrawingMsg.waitForRepaint v)) ms
  | _, DrawingMsg.doRepaintWindow :: _ => false

/-- The buffer of the most recent CompositeRequest among the messages. -/
def lastComposite : List (DrawingMsg I) → Option I
  | [] => none
  | DrawingMsg.composite buf :: ms =>
    match lastComposite ms with
    | some b => some b
    | none => some buf
  | _ :: ms => lastComposite ms

/-- A drawing loop inside a pacing window: it flushed the screen once and waits. -/
def sampleDrawing : Drawing (List Nat) :=
  handleWindowDrawing.step sampleExt (handleWindowDrawing.start []) (DrawingMsg.composite [1])

/-- Two CompositeRequests and a resize handshake. -/
def sampleMsgs : List (DrawingMsg (List Nat)) :=
  [DrawingMsg.composite [2], DrawingMsg.waitForRepaint true, DrawingMsg.composite [3]]

/-- Two rectangles that overlap: both contain the point (7,7). -/
def sampleRect1 : Rect Int := ⟨⟨0, 0⟩, ⟨10, 10⟩⟩

def sampleRect2 : Rect Int := ⟨⟨5, 5⟩, ⟨20, 20⟩⟩

/-- The sample world after `PlaceBlock(b0, sampleRect1)` and `PlaceBlock(b1, sampleRect2)`
on foundation 0. -/
def sampleOverlap : World Int (List Nat) :=
  (Call.run sampleWorld [Call.place 0 0 sampleRect1, Call.place 0 1 sampleRect2]).getD
    sampleWorld

/-- The statements of PlaceBlock after its branch on the parent of b: the bounds entry,
the new Compositor channel, the forwarding goroutine and the redraw. -/
def PlaceBlock.finish (w1 : World S I) (f i : Nat) (bounds : Rect S) : World S I :=
  let fd := w1.founds f
  let w2 := w1.setFound f
    { fd with ChildrenBounds := Function.update fd.ChildrenBounds (some i) (some bounds) }
  let c := w2.nextChan
  let w3 : World S I := { w2 with nextChan := c + 1 }
  let w4 := w3.setBlock i { w3.blocks i with Compositor := some c }
  let w5 : World S I := { w4 with forwarders := w4.forwarders ++ [(c, i, f)] }
  let fd5 := w5.founds f
  w5.setFound f { fd5 with Redraw := RedrawEventChan.Stack fd5.Redraw ⟨bounds⟩ }

/-- The branch of PlaceBlock on the parent of b. -/
def PlaceBlock.attach (w : World S I) (f i : Nat) : Option (World S I) :=
  match (w.blocks i).Parent with
  | none =>
    let fd := w.founds f
    let wa := w.setFound f { fd with Children := fd.Children ++ [some i] }
    some (wa.setBlock i { wa.blocks i with Parent := some f })
  | some p =>
    if p ≠ f then
      match RemoveBlock w p (some i) with
      | none => none
      | some wa => some (wa.setBlock i { wa.blocks i with Parent := some f })
    else some w

/-- The statements of RemoveBlock after `close(b.Compositor)`. -/
def RemoveBlock.detach (w1 : World S I) (f i : Nat) : World S I :=
  let w2 := w1.setBlock i { w1.blocks i with Compositor := none }
  let fd := w2.founds f
  let w3 :=
    match fd.ChildrenBounds (some i) with
    | some bounds =>
      w2.setFound f { fd with Redraw := RedrawEventChan.Stack fd.Redraw ⟨bounds⟩ }
    | none => w2
  let fd3 := w3.founds f
  let w4 := w3.setFound f
    { fd3 with ChildrenBounds := Function.update fd3.ChildrenBounds (some i) none }
  w4.setBlock i { w4.blocks i with Parent := none }

/-- The world `sampleOverlap` after foundation 0 processed the composite message of
block 0 with the buffer `[9]`. -/
def sampleComposited : World Int (List Nat) :=
  (DoCompositeBlockRequest sampleExt sampleOverlap 0 ⟨[9], some 0⟩).getD sampleWorld

/-- The world `sampleOverlap` after a mouse-down of button 1 at (7,7). -/
def samplePressed : World Int (List Nat) :=
  DoMouseDownEvent sampleExt sampleOverlap 0 ⟨1, ⟨7, 7⟩, ⟨7, 7⟩⟩

/-- The world `samplePressed` after the mouse-up of button 1 at (50,50). -/
def sampleReleased : World Int (List Nat) :=
  (DoMouseUpEvent sampleExt samplePressed 0 ⟨1, ⟨50, 50⟩, ⟨50, 50⟩⟩).getD sampleWorld

/-- The world `sampleComposited` after `RemoveBlock(b0)` on foundation 0. -/
def sampleRemoved : World Int (List Nat) :=
  (RemoveBlock sampleComposited 0 (some 0)).getD sampleWorld

/-- The start of a sequence of calls: no block has a parent, the bounds map of every
foundation is empty, as Initialize leaves it, and the channels closed so far are
channels `make` returned before. -/
def Initial (w : World S I) : Prop :=
  (∀ b, (w.blocks b).Parent = none)
    ∧ (∀ f p, (w.founds f).ChildrenBounds p = none)
    ∧ (∀ c, c ∈ w.closed → c < w.nextChan)

/-- No call of the sequence places a block whose parent, at the time of the call, is
another foundation. -/
def Call.noReparent : World S I → List (Call S) → Bool
  | _, [] => true
  | w, c :: cs =>
    (match c with
      | Call.place f b _ =>
        decide ((w.blocks b).Parent = none) || decide ((w.blocks b).Parent = some f)
      | Call.remove _ _ => true)
    && (match Call.apply w c with
      | none => true
      | some w1 => Call.noReparent w1 cs)

/-- What PlaceBlock and RemoveBlock keep between the blocks and the foundations when no
block is moved from one foundation to another: the keys of f.ChildrenBounds are the
blocks whose parent is f, these are among f.Children, and their Compositor channels are
open, made before and pairwise different. -/
def Inv (w : World S I) : Prop :=
  (∀ f p, (w.founds f).ChildrenBounds p ≠ none → ∃ b, p = some b ∧ (w.blocks b).Parent = some f)
    ∧ (∀ f b, (w.blocks b).Parent = some f →
        (w.founds f).ChildrenBounds (some b) ≠ none ∧ some b ∈ (w.founds f).Children)
    ∧ (∀ b, (w.blocks b).Parent ≠ none →
        ∃ c, (w.blocks b).Compositor = some c ∧ c ∉ w.closed ∧ c < w.nextChan)
    ∧ (∀ b b1, (w.blocks b).Parent ≠ none → (w.blocks b1).Parent ≠ none →
        (w.blocks b).Compositor = (w.blocks b1).Compositor → b = b1)
    ∧ (∀ c, c ∈ w.closed → c < w.nextChan)

/-! # Theorems -/

/-! ## Hit testing -/

theorem BlocksForCoord_loop_eq (x : Ext S I) (fd : Foundation S I) (p : Coord S)
    (l bs : List BlockPtr) :
    BlocksForCoord.loop x fd p l bs = bs ++ l.filter (struck x fd p) := by
  induction l generalizing bs with
  | nil => simp [BlocksForCoord.loop]
  | cons bl rest ih =>
    unfold BlocksForCoord.loop
    cases hb : fd.ChildrenBounds bl with
    | none => simp [ih, struck, hb]
    | some bbs =>
      by_cases hc : x.ContainsCoord bbs p = true
      · simp [ih, struck, hb, hc]
      · simp [ih, struck, hb, hc]

theorem BlocksForCoord_eq_filter (x : Ext S I) (fd : Foundation S I) (p : Coord S) :
    BlocksForCoord x fd p = fd.Children.filter (struck x fd p) := by
  simp [BlocksForCoord, BlocksForCoord_loop_eq]

theorem InvokeOnBlocksUnder_loop_eq {σ : Type} (x : Ext S I) (fd : Foundation S I)
    (p : Coord S) (foo : BlockPtr → σ → σ) (l : List BlockPtr) (st : σ) :
    InvokeOnBlocksUnder.loop x fd p foo l st =
      match l.filter (struck x fd p) with
      | [] => st
      | bl :: _ => foo bl st := by
  induction l with
  | nil => simp [InvokeOnBlocksUnder.loop]
  | cons bl rest ih =>
    unfold InvokeOnBlocksUnder.loop
    cases hb : fd.ChildrenBounds bl with
    | none => simp [ih, struck, hb]
    | some bbs =>
      by_cases hc : x.ContainsCoord bbs p = true
      · simp [struck, hb, hc]
      · simp [ih, struck, hb, hc]

theorem InvokeOnBlocksUnder_eq {σ : Type} (x : Ext S I) (fd : Foundation S I)
    (p : Coord S) (foo : BlockPtr → σ → σ) (st : σ) :
    InvokeOnBlocksUnder x fd p foo st =
      match BlocksForCoord x fd p with
      | [] => st
      | bl :: _ => foo bl st := by
  rw [BlocksForCoord_eq_filter]
  exact InvokeOnBlocksUnder_loop_eq x fd p foo fd.Children st

/-- C9: BlocksForCoord(p) is the subsequence of f.Children, in order and with
multiplicity, of the children that have a bounds entry whose rectangle contains p
(a child without a bounds entry is skipped); InvokeOnBlocksUnder(p, foo) runs foo once,
on the first element of BlocksForCoord(p), when that list is non-empty, and does not run
foo when it is empty: this holds for the effect of any foo on any state, and in
particular for the list of the calls of foo. -/
theorem C9_hit_test (x : Ext S I) (fd : Foundation S I) (p : Coord S) :
    BlocksForCoord x fd p
        = fd.Children.filter (fun bl =>
            match fd.ChildrenBounds bl with
            | none => false
            | some bbs => x.ContainsCoord bbs p)
      ∧ (∀ (σ : Type) (foo : BlockPtr → σ → σ) (st : σ),
          InvokeOnBlocksUnder x fd p foo st =
            match BlocksForCoord x fd p with
            | [] => st
            | bl :: _ => foo bl st)
      ∧ InvokeOnBlocksUnder x fd p (fun bl calls => calls ++ [bl]) []
          = (BlocksForCoord x fd p).head?.toList := by
  refine ⟨?_, ?_, ?_⟩
  · rw [BlocksForCoord_eq_filter]; rfl
  · intro σ foo st
    exact InvokeOnBlocksUnder_eq x fd p foo st
  · rw [InvokeOnBlocksUnder_eq]
    cases BlocksForCoord x fd p <;> simp

/-! ## RemoveBlock on a block of another parent, DoResizeEvent -/

theorem RemoveBlock_other_parent (w : World S I) (f b : Nat)
    (h : (w.blocks b).Parent ≠ some f) :
    RemoveBlock w f (some b) = some w := by
  simp [RemoveBlock, h]

/-- C6: when the Parent of b is not f (nil or another Foundation), f.RemoveBlock(b)
returns and leaves the whole world as it was: Children, ChildrenBounds,
ChildrenLastBuffers and DragOriginBlocks of f, the Parent and Compositor of b, the set of
closed channels and the redraws scheduled on f are all unchanged. -/
theorem C6_RemoveBlock_not_owned (w : World S I) (f b : Nat)
    (h : (w.blocks b).Parent ≠ some f) :
    RemoveBlock w f (some b) = some w :=
  RemoveBlock_other_parent w f b h

theorem C6_RemoveBlock_not_owned_witness :
    (sampleWorld.blocks 3).Parent ≠ some 0
      ∧ RemoveBlock sampleWorld 0 (some 3) = some sampleWorld :=
  ⟨by decide, C6_RemoveBlock_not_owned sampleWorld 0 3 (by decide)⟩

/-- C10: when e.Size == f.Size, DoResizeEvent(e) leaves the whole world unchanged (so
Size and Buffer are the same and no redraw is scheduled); otherwise afterwards f.Size is
e.Size and f.Buffer is nil, and in both cases Children, ChildrenBounds,
ChildrenLastBuffers and DragOriginBlocks are unchanged. -/
theorem C10_DoResizeEvent (x : Ext S I) (w : World S I) (f : Nat) (e : ResizeEvent S) :
    (x.CoordEq e.Size (w.founds f).Size = true → DoResizeEvent x w f e = w)
      ∧ (x.CoordEq e.Size (w.founds f).Size = false →
          ((DoResizeEvent x w f e).founds f).Size = e.Size
            ∧ ((DoResizeEvent x w f e).founds f).Buffer = none)
      ∧ ((DoResizeEvent x w f e).founds f).Children = (w.founds f).Children
      ∧ ((DoResizeEvent x w f e).founds f).ChildrenBounds = (w.founds f).ChildrenBounds
      ∧ ((DoResizeEvent x w f e).founds f).ChildrenLastBuffers
          = (w.founds f).ChildrenLastBuffers
      ∧ ((DoResizeEvent x w f e).founds f).DragOriginBlocks
          = (w.founds f).DragOriginBlocks := by
  by_cases h : x.CoordEq e.Size (w.founds f).Size = true
  · simp [DoResizeEvent, h]
  · simp [DoResizeEvent, h, World.setFound]

theorem C10_DoResizeEvent_witness :
    (DoResizeEvent sampleExt sampleWorld 0 ⟨0, 0, ⟨0, 0⟩⟩ = sampleWorld)
      ∧ ((DoResizeEvent sampleExt sampleWorld 0 ⟨4, 3, ⟨4, 3⟩⟩).founds 0).Size = ⟨4, 3⟩
      ∧ ((DoResizeEvent sampleExt sampleWorld 0 ⟨4, 3, ⟨4, 3⟩⟩).founds 0).Buffer = none :=
  ⟨(C10_DoResizeEvent sampleExt sampleWorld 0 ⟨0, 0, ⟨0, 0⟩⟩).1 (by decide),
   ((C10_DoResizeEvent sampleExt sampleWorld 0 ⟨4, 3, ⟨4, 3⟩⟩).2.1 (by decide)).1,
   ((C10_DoResizeEvent sampleExt sampleWorld 0 ⟨4, 3, ⟨4, 3⟩⟩).2.1 (by decide)).2⟩

/-! ## Frame pacing -/

theorem handleWindowDrawing.run_append (x : Ext S I) (d : Drawing I)
    (ms ns : List (DrawingMsg I)) :
    handleWindowDrawing.run x d (ms ++ ns)
      = handleWindowDrawing.run x (handleWindowDrawing.run x d ms) ns := by
  simp [handleWindowDrawing.run, List.foldl_append]

theorem handleWindowDrawing.step_timer (x : Ext S I) (d : Drawing I)
    (hn : d.newStuff = true) :
    (handleWindowDrawing.step x d DrawingMsg.doRepaintWindow).flushed
        = d.flushed ++ [d.screen]
      ∧ (handleWindowDrawing.step x d DrawingMsg.doRepaintWindow).sleeps = d.sleeps + 1 := by
  simp [handleWindowDrawing.step, hn, handleWindowDrawing.flush]

/-- Inside a pacing window nothing is flushed and no timer is started; once a
CompositeRequest arrived, newStuff is set and the screen was last drawn from the most
recent buffer. -/
theorem handleWindowDrawing.window (x : Ext S I) (ms : List (DrawingMsg I)) :
    ∀ d : Drawing I, handleWindowDrawing.inWindow x d ms = true →
      (handleWindowDrawing.run x d ms).flushed = d.flushed
        ∧ (handleWindowDrawing.run x d ms).sleeps = d.sleeps
        ∧ (d.newStuff = true → (handleWindowDrawing.run x d ms).newStuff = true)
        ∧ (lastComposite ms = none → (handleWindowDrawing.run x d ms).screen = d.screen)
        ∧ ∀ b, lastComposite ms = some b →
            (handleWindowDrawing.run x d ms).newStuff = true
              ∧ ∃ scr, (handleWindowDrawing.run x d ms).screen
                  = x.Draw scr (x.Bounds b) b ⟨0, 0⟩ Op.Src := by
  induction ms with
  | nil => intro d _; simp [handleWindowDrawing.run, lastComposite]
  | cons m ms ih =>
    intro d h
    cases m with
    | composite buf =>
      simp only [handleWindowDrawing.inWindow, Bool.and_eq_true] at h
      obtain ⟨hw, h⟩ := h
      have hstep : handleWindowDrawing.step x d (DrawingMsg.composite buf)
          = { d with screen := x.Draw d.screen (x.Bounds buf) buf ⟨0, 0⟩ Op.Src,
                     newStuff := true } := by
        simp [handleWindowDrawing.step, hw]
      obtain ⟨h1, h2, h3, h4, h5⟩ := ih _ h
      have hrun : handleWindowDrawing.run x d (DrawingMsg.composite buf :: ms)
          = handleWindowDrawing.run x
              (handleWindowDrawing.step x d (DrawingMsg.composite buf)) ms := rfl
      rw [hrun]
      refine ⟨by rw [h1, hstep], by rw [h2, hstep], fun _ => h3 (by rw [hstep]), ?_, ?_⟩
      · intro hn
        cases hl : lastComposite ms <;> simp [lastComposite, hl] at hn
      · intro b hb
        cases hl : lastComposite ms with
        | none =>
          simp [lastComposite, hl] at hb
          subst hb
          exact ⟨h3 (by rw [hstep]), d.screen, by rw [h4 hl, hstep]⟩
        | some b1 =>
          simp [lastComposite, hl] at hb
          subst hb
          exact h5 _ hl
    | waitForRepaint v =>
      simp only [handleWindowDrawing.inWindow] at h
      obtain ⟨h1, h2, h3, h4, h5⟩ := ih _ h
      have hrun : handleWindowDrawing.run x d (DrawingMsg.waitForRepaint v :: ms)
          = handleWindowDrawing.run x
              (handleWindowDrawing.step x d (DrawingMsg.waitForRepaint v)) ms := rfl
      rw [hrun]
      refine ⟨by rw [h1]; rfl, by rw [h2]; rfl, fun hn => h3 hn, ?_, ?_⟩
      · intro hn
        rw [h4 (by simpa [lastComposite] using hn)]; rfl
      · intro b hb
        exact h5 b (by simpa [lastComposite] using hb)
    | doRepaintWindow => simp [handleWindowDrawing.inWindow] at h

theorem handleWindowDrawing.inWindow_take (x : Ext S I) (ms : List (DrawingMsg I)) :
    ∀ (d : Drawing I) (k : Nat), handleWindowDrawing.inWindow x d ms = true →
      handleWindowDrawing.inWindow x d (ms.take k) = true := by
  induction ms with
  | nil => intro d k h; simp [handleWindowDrawing.inWindow]
  | cons m ms ih =>
    intro d k h
    cases k with
    | zero => simp [handleWindowDrawing.inWindow]
    | succ k =>
      cases m with
      | composite buf =>
        simp only [handleWindowDrawing.inWindow, Bool.and_eq_true, List.take_succ_cons] at h ⊢
        exact ⟨h.1, ih _ k h.2⟩
      | waitForRepaint v =>
        simp only [handleWindowDrawing.inWindow, List.take_succ_cons] at h ⊢
        exact ih _ k h
      | doRepaintWindow => simp [handleWindowDrawing.inWindow] at h

/-- C4: frame pacing over the steps of the handleWindowDrawing loop.  (1) When the
messages `ms` arrive inside one pacing window (no timer signal among them, each
CompositeRequest arriving while waitingForRepaint is true) and at least one of them is
a CompositeRequest, no message causes a flush or starts a timer, and the timer signal
that closes the window causes exactly one flush, of a screen whose last drawing was from
the buffer `b` of the most recent CompositeRequest.  (2) A CompositeRequest that arrives
when waitingForRepaint is false is drawn and flushed at once, exactly once.  (3) After
every step that flushes, waitingForRepaint is true and newStuff is false. -/
theorem C4_frame_pacing (x : Ext S I) :
    (∀ (d : Drawing I) (ms : List (DrawingMsg I)) (b : I),
        handleWindowDrawing.inWindow x d ms = true → lastComposite ms = some b →
        (∀ k, (handleWindowDrawing.run x d (ms.take k)).flushed = d.flushed
            ∧ (handleWindowDrawing.run x d (ms.take k)).sleeps = d.sleeps)
          ∧ ∃ scr,
              (handleWindowDrawing.run x d (ms ++ [DrawingMsg.doRepaintWindow])).flushed
                  = d.flushed ++ [x.Draw scr (x.Bounds b) b ⟨0, 0⟩ Op.Src]
                ∧ (handleWindowDrawing.run x d (ms ++ [DrawingMsg.doRepaintWindow])).sleeps
                    = d.sleeps + 1)
      ∧ (∀ (d : Drawing I) (b : I), d.waitingForRepaint = false →
          (handleWindowDrawing.step x d (DrawingMsg.composite b)).flushed
              = d.flushed ++ [x.Draw d.screen (x.Bounds b) b ⟨0, 0⟩ Op.Src]
            ∧ (handleWindowDrawing.step x d (DrawingMsg.composite b)).sleeps = d.sleeps + 1)
      ∧ (∀ (d : Drawing I) (m : DrawingMsg I),
          (handleWindowDrawing.step x d m).flushed ≠ d.flushed →
          (handleWindowDrawing.step x d m).waitingForRepaint = true
            ∧ (handleWindowDrawing.step x d m).newStuff = false) := by
  refine ⟨?_, ?_, ?_⟩
  · intro d ms b hw hb
    refine ⟨fun k => ?_, ?_⟩
    · have h := handleWindowDrawing.window x (ms.take k) d
        (handleWindowDrawing.inWindow_take x ms d k hw)
      exact ⟨h.1, h.2.1⟩
    · obtain ⟨h1, h2, _, _, h5⟩ := handleWindowDrawing.window x ms d hw
      obtain ⟨hn, scr, hs⟩ := h5 b hb
      have ht := handleWindowDrawing.step_timer x (handleWindowDrawing.run x d ms) hn
      have hone : ∀ d1 : Drawing I,
          handleWindowDrawing.run x d1 [DrawingMsg.doRepaintWindow]
            = handleWindowDrawing.step x d1 DrawingMsg.doRepaintWindow := fun _ => rfl
      refine ⟨scr, ?_, ?_⟩
      · rw [handleWindowDrawing.run_append, hone, ht.1, h1, hs]
      · rw [handleWindowDrawing.run_append, hone, ht.2, h2]
  · intro d b hw
    simp [handleWindowDrawing.step, hw, handleWindowDrawing.flush]
  · intro d m hne
    cases m with
    | composite buf =>
      by_cases hw : d.waitingForRepaint = true
      · simp [handleWindowDrawing.step, hw] at hne
      · simp [handleWindowDrawing.step, hw, handleWindowDrawing.flush]
    | waitForRepaint v => simp [handleWindowDrawing.step] at hne
    | doRepaintWindow =>
      by_cases hn : d.newStuff = true
      · simp [handleWindowDrawing.step, hn, handleWindowDrawing.flush]
      · simp [handleWindowDrawing.step, hn] at hne

theorem C4_frame_pacing_witness :
    (handleWindowDrawing.inWindow sampleExt sampleDrawing sampleMsgs = true
      ∧ lastComposite sampleMsgs = some [3]
      ∧ ((∀ k, (handleWindowDrawing.run sampleExt sampleDrawing (sampleMsgs.take k)).flushed
              = sampleDrawing.flushed
            ∧ (handleWindowDrawing.run sampleExt sampleDrawing (sampleMsgs.take k)).sleeps
              = sampleDrawing.sleeps)
          ∧ ∃ scr,
              (handleWindowDrawing.run sampleExt sampleDrawing
                  (sampleMsgs ++ [DrawingMsg.doRepaintWindow])).flushed
                  = sampleDrawing.flushed
                      ++ [sampleExt.Draw scr (sampleExt.Bounds [3]) [3] ⟨0, 0⟩ Op.Src]
                ∧ (handleWindowDrawing.run sampleExt sampleDrawing
                    (sampleMsgs ++ [DrawingMsg.doRepaintWindow])).sleeps
                    = sampleDrawing.sleeps + 1))
      ∧ (handleWindowDrawing.step sampleExt (handleWindowDrawing.start [])
            (DrawingMsg.composite [1])).flushed = [[1]]
      ∧ (handleWindowDrawing.step sampleExt (handleWindowDrawing.start [])
            (DrawingMsg.composite [1])).waitingForRepaint = true :=
  ⟨⟨by decide, by decide,
      (C4_frame_pacing sampleExt).1 sampleDrawing sampleMsgs [3] (by decide) (by decide)⟩,
    ((C4_frame_pacing sampleExt).2.1 (handleWindowDrawing.start []) [1] (by decide)).1,
    ((C4_frame_pacing sampleExt).2.2 (handleWindowDrawing.start [])
      (DrawingMsg.composite [1]) (by decide)).1⟩

/-! ## Compositing -/

theorem sendUp_some (w w1 : World S I) (f : Nat) (h : sendUp w f = some w1) :
    w1.founds = w.founds ∧ w1.blocks = w.blocks ∧ w1.closed = w.closed
      ∧ w1.nextChan = w.nextChan := by
  unfold sendUp at h
  cases hc : (w.founds f).Compositor with
  | none =>
    simp [hc] at h
    subst h
    exact ⟨rfl, rfl, rfl, rfl⟩
  | some c =>
    simp only [hc, sendComposite] at h
    by_cases hcl : c ∈ w.closed
    · simp [hcl] at h
    · simp [hcl] at h
      subst h
      exact ⟨rfl, rfl, rfl, rfl⟩

theorem sendUp_isSome (w : World S I) (f : Nat)
    (h : ∀ c, (w.founds f).Compositor = some c → c ∉ w.closed) :
    (sendUp w f).isSome = true := by
  unfold sendUp
  cases hc : (w.founds f).Compositor with
  | none => simp
  | some c => simp [sendComposite, h c hc]

/-- What CompositeBlockBuffer changes: the Buffer of f, and only when b has bounds. -/
theorem CompositeBlockBuffer_founds (x : Ext S I) (w : World S I) (f : Nat) (b : BlockPtr)
    (buf : I) :
    (CompositeBlockBuffer x w f b buf).1.blocks = w.blocks
      ∧ (CompositeBlockBuffer x w f b buf).1.closed = w.closed
      ∧ (CompositeBlockBuffer x w f b buf).1.nextChan = w.nextChan
      ∧ (∀ g, ((CompositeBlockBuffer x w f b buf).1.founds g).Children = (w.founds g).Children
          ∧ ((CompositeBlockBuffer x w f b buf).1.founds g).ChildrenBounds
              = (w.founds g).ChildrenBounds
          ∧ ((CompositeBlockBuffer x w f b buf).1.founds g).ChildrenLastBuffers
              = (w.founds g).ChildrenLastBuffers
          ∧ ((CompositeBlockBuffer x w f b buf).1.founds g).DragOriginBlocks
              = (w.founds g).DragOriginBlocks
          ∧ ((CompositeBlockBuffer x w f b buf).1.founds g).Compositor
              = (w.founds g).Compositor
          ∧ ((CompositeBlockBuffer x w f b buf).1.founds g).Size = (w.founds g).Size) := by
  unfold CompositeBlockBuffer
  cases hb : (w.founds f).ChildrenBounds b with
  | none => simp [hb]
  | some bounds =>
    refine ⟨by simp [hb, World.setFound], by simp [hb, World.setFound],
      by simp [hb, World.setFound], ?_⟩
    intro g
    by_cases hg : g = f
    · subst hg; simp [hb, World.setFound]
    · simp [hb, World.setFound, Function.update_noteq hg]

theorem CompositeBlockBuffer_buffer (x : Ext S I) (w : World S I) (f : Nat) (b : BlockPtr)
    (buf : I) (R : Rect S) (hR : (w.founds f).ChildrenBounds b = some R) :
    ((CompositeBlockBuffer x w f b buf).1.founds f).Buffer
      = some (x.Draw (x.PrepareBuffer (w.founds f).Size (w.founds f).Buffer)
          (x.RectangleForRect R) buf ⟨0, 0⟩ Op.Over) := by
  simp [CompositeBlockBuffer, hR, World.setFound]

/-- C3: for a child C with bounds R in f.ChildrenBounds and a buffer B, every return of
DoCompositeBlockRequest on (C, B) leaves f.ChildrenLastBuffers[C] equal to B and
f.Buffer equal to the prepared prior buffer of f with B drawn at RectangleForRect(R)
from the source point (0,0) with draw.Over; every other entry of ChildrenLastBuffers,
and ChildrenBounds, Children and DragOriginBlocks, are unchanged.  The call returns
unless the Compositor channel of f is a closed channel. -/
theorem C3_DoCompositeBlockRequest (x : Ext S I) (w : World S I) (f : Nat) (C : BlockPtr)
    (B : I) (R : Rect S) (hR : (w.founds f).ChildrenBounds C = some R) :
    ((∀ c, (w.founds f).Compositor = some c → c ∉ w.closed) →
        (DoCompositeBlockRequest x w f ⟨B, C⟩).isSome = true)
      ∧ ∀ w1, DoCompositeBlockRequest x w f ⟨B, C⟩ = some w1 →
          (w1.founds f).ChildrenLastBuffers C = some B
            ∧ (w1.founds f).Buffer
                = some (x.Draw (x.PrepareBuffer (w.founds f).Size (w.founds f).Buffer)
                    (x.RectangleForRect R) B ⟨0, 0⟩ Op.Over)
            ∧ (∀ c, c ≠ C →
                (w1.founds f).ChildrenLastBuffers c = (w.founds f).ChildrenLastBuffers c)
            ∧ (w1.founds f).ChildrenBounds = (w.founds f).ChildrenBounds
            ∧ (w1.founds f).Children = (w.founds f).Children
            ∧ (w1.founds f).DragOriginBlocks = (w.founds f).DragOriginBlocks := by
  have key := CompositeBlockBuffer_founds x
    (w.setFound f { w.founds f with
      ChildrenLastBuffers := Function.update (w.founds f).ChildrenLastBuffers C (some B) })
    f C B
  have hbuf := CompositeBlockBuffer_buffer x
    (w.setFound f { w.founds f with
      ChildrenLastBuffers := Function.update (w.founds f).ChildrenLastBuffers C (some B) })
    f C B R (by simp [World.setFound, hR])
  obtain ⟨_, hcl, _, hf⟩ := key
  obtain ⟨h1, h2, h3, h4, h5, _⟩ := hf f
  constructor
  · intro hopen
    unfold DoCompositeBlockRequest
    apply sendUp_isSome
    intro c hc
    simp only [h5, hcl] at hc ⊢
    simp only [World.setFound, Function.update_same] at hc ⊢
    exact hopen c hc
  · intro w1 hw1
    unfold DoCompositeBlockRequest at hw1
    obtain ⟨hfo, _, _, _⟩ := sendUp_some _ _ _ hw1
    rw [hfo]
    refine ⟨?_, ?_, ?_, ?_, ?_, ?_⟩
    · rw [h3]; simp [World.setFound]
    · rw [hbuf]; simp [World.setFound]
    · intro c hc; rw [h3]; simp [World.setFound, Function.update_noteq hc]
    · rw [h2]; simp [World.setFound]
    · rw [h1]; simp [World.setFound]
    · rw [h4]; simp [World.setFound]

/-! ## Mouse events -/

/-- DoMouseDownEvent in closed form, by the first child the hit test strikes. -/
theorem DoMouseDownEvent_eq (x : Ext S I) [Sub S] [Zero S] (w : World S I) (f : Nat)
    (e : MouseDownEvent S) :
    DoMouseDownEvent x w f e =
      match BlocksForCoord x (w.founds f) e.Loc with
      | [] => w
      | none :: _ => w
      | some i :: _ =>
        ((w.setFound f
            { w.founds f with
              DragOriginBlocks := Function.update (w.founds f).DragOriginBlocks e.Which
                (some ((((w.founds f).DragOriginBlocks e.Which).getD []) ++ [some i])) }).sendEvent
          i (Event.down
            { e with Loc :=
                ⟨e.Loc.X - (((w.founds f).ChildrenBounds (some i)).getD zeroRect).Min.X,
                 e.Loc.Y - (((w.founds f).ChildrenBounds (some i)).getD zeroRect).Min.Y⟩ })) := by
  unfold DoMouseDownEvent
  rw [InvokeOnBlocksUnder_eq]
  cases h : BlocksForCoord x (w.founds f) e.Loc with
  | nil => rfl
  | cons bl rest =>
    cases bl with
    | none => rfl
    | some i => rfl

theorem sendEvent_founds (w : World S I) (i : Nat) (ev : Event S) :
    (w.sendEvent i ev).founds = w.founds ∧ (w.sendEvent i ev).closed = w.closed
      ∧ (w.sendEvent i ev).nextChan = w.nextChan := ⟨rfl, rfl, rfl⟩

theorem sendEvent_blocks_same (w : World S I) (i : Nat) (ev : Event S) :
    ((w.sendEvent i ev).blocks i).allEventsIn = (w.blocks i).allEventsIn ++ [ev] := by
  simp [World.sendEvent, World.setBlock]

theorem sendEvent_blocks_other (w : World S I) (i j : Nat) (ev : Event S) (h : j ≠ i) :
    (w.sendEvent i ev).blocks j = w.blocks j := by
  simp [World.sendEvent, World.setBlock, Function.update_noteq h]

/-- The first phase of DoMouseUpEvent: the hit test and its closure. -/
theorem DoMouseUpEvent_hit_eq (x : Ext S I) [Sub S] [Zero S] (w : World S I) (f : Nat)
    (e : MouseUpEvent S) :
    InvokeOnBlocksUnder x (w.founds f) e.Loc (DoMouseUpEvent.foo f e) (w, fun _ => false) =
      match BlocksForCoord x (w.founds f) e.Loc with
      | [] => (w, fun _ => false)
      | none :: _ => (w, Function.update (fun _ => false) none true)
      | some i :: _ =>
        (w.sendEvent i (Event.up
            { e with Loc :=
                ⟨e.Loc.X - (((w.founds f).ChildrenBounds (some i)).getD zeroRect).Min.X,
                 e.Loc.Y - (((w.founds f).ChildrenBounds (some i)).getD zeroRect).Min.Y⟩ }),
          Function.update (fun _ => false) (some i) true) := by
  rw [InvokeOnBlocksUnder_eq]
  cases h : BlocksForCoord x (w.founds f) e.Loc with
  | nil => rfl
  | cons bl rest =>
    cases bl with
    | none => rfl
    | some i => rfl

theorem DoMouseUpEvent_hit_founds (x : Ext S I) [Sub S] [Zero S] (w : World S I) (f : Nat)
    (e : MouseUpEvent S) :
    (InvokeOnBlocksUnder x (w.founds f) e.Loc (DoMouseUpEvent.foo f e)
      (w, fun _ => false)).1.founds = w.founds := by
  rw [DoMouseUpEvent_hit_eq]
  cases h : BlocksForCoord x (w.founds f) e.Loc with
  | nil => rfl
  | cons bl rest =>
    cases bl with
    | none => rfl
    | some i => rfl

theorem DoMouseUpEvent.origins_founds [Sub S] [Zero S] (f : Nat) (e : MouseUpEvent S)
    (touched : BlockPtr → Bool) (l : List BlockPtr) :
    ∀ w w1 : World S I, DoMouseUpEvent.origins f e touched w l = some w1 →
      w1.founds = w.founds := by
  induction l with
  | nil =>
    intro w w1 h
    simp [DoMouseUpEvent.origins] at h
    rw [h]
  | cons o rest ih =>
    intro w w1 h
    unfold DoMouseUpEvent.origins at h
    by_cases ht : touched o = true
    · simp only [ht, if_true] at h
      exact ih w w1 h
    · simp only [ht] at h
      cases o with
      | none => simp at h
      | some i =>
        simp only [Bool.false_eq_true, if_false] at h
        rw [ih _ w1 h, (sendEvent_founds w i _).1]

theorem DoMouseUpEvent.origins_isSome [Sub S] [Zero S] (f : Nat) (e : MouseUpEvent S)
    (touched : BlockPtr → Bool) (l : List BlockPtr)
    (hl : ∀ o ∈ l, o = none → touched o = true) :
    ∀ w : World S I, (DoMouseUpEvent.origins f e touched w l).isSome = true := by
  induction l with
  | nil => intro w; simp [DoMouseUpEvent.origins]
  | cons o rest ih =>
    intro w
    have ih1 := ih (fun o1 ho1 => hl o1 (List.mem_cons_of_mem _ ho1))
    unfold DoMouseUpEvent.origins
    by_cases ht : touched o = true
    · simp only [ht, if_true]
      exact ih1 w
    · cases o with
      | none => exact absurd (hl none (List.mem_cons_self _ _) rfl) ht
      | some i =>
        simp only [ht, Bool.false_eq_true, if_false]
        exact ih1 _

/-- C5 (amended): DoMouseDownEvent reaches the first struck child only.  When the first
child of f.Children whose bounds contain e.Loc is the block i, with bounds R, that block
is sent exactly one mouse-down, with location e.Loc minus R.Min, and is appended to
f.DragOriginBlocks[e.Which]; every other block and the entry of every other button are
untouched.  When no child is struck, or the first struck child is nil, nothing
changes. -/
theorem C5_DoMouseDownEvent_first (x : Ext S I) [Sub S] [Zero S] (w : World S I) (f : Nat)
    (e : MouseDownEvent S) :
    (∀ i rest R, BlocksForCoord x (w.founds f) e.Loc = some i :: rest →
        (w.founds f).ChildrenBounds (some i) = some R →
        ((DoMouseDownEvent x w f e).blocks i).allEventsIn
            = (w.blocks i).allEventsIn
                ++ [Event.down { e with Loc := ⟨e.Loc.X - R.Min.X, e.Loc.Y - R.Min.Y⟩ }]
          ∧ ((DoMouseDownEvent x w f e).founds f).DragOriginBlocks e.Which
              = some ((((w.founds f).DragOriginBlocks e.Which).getD []) ++ [some i])
          ∧ (∀ j, j ≠ i → (DoMouseDownEvent x w f e).blocks j = w.blocks j)
          ∧ (∀ k, k ≠ e.Which →
              ((DoMouseDownEvent x w f e).founds f).DragOriginBlocks k
                = (w.founds f).DragOriginBlocks k))
      ∧ (BlocksForCoord x (w.founds f) e.Loc = [] → DoMouseDownEvent x w f e = w)
      ∧ (∀ rest, BlocksForCoord x (w.founds f) e.Loc = none :: rest →
          DoMouseDownEvent x w f e = w) := by
  refine ⟨?_, ?_, ?_⟩
  · intro i rest R hhit hR
    rw [DoMouseDownEvent_eq, hhit]
    simp only [hR, Option.getD_some]
    refine ⟨?_, ?_, ?_, ?_⟩
    · simp [World.sendEvent, World.setBlock, World.setFound]
    · simp [World.sendEvent, World.setBlock, World.setFound]
    · intro j hj
      simp [World.sendEvent, World.setBlock, World.setFound, Function.update_noteq hj]
    · intro k hk
      simp [World.sendEvent, World.setBlock, World.setFound, Function.update_noteq hk]
  · intro h
    rw [DoMouseDownEvent_eq, h]
  · intro rest h
    rw [DoMouseDownEvent_eq, h]

theorem C5_DoMouseDownEvent_first_witness :
    BlocksForCoord sampleExt (sampleOverlap.founds 0) (⟨7, 7⟩ : Coord Int) = [some 0, some 1]
      ∧ ((DoMouseDownEvent sampleExt sampleOverlap 0 ⟨1, ⟨7, 7⟩, ⟨7, 7⟩⟩).blocks 0).allEventsIn
          = (sampleOverlap.blocks 0).allEventsIn ++ [Event.down ⟨1, ⟨7, 7⟩, ⟨7 - 0, 7 - 0⟩⟩] :=
  ⟨by decide,
    ((C5_DoMouseDownEvent_first sampleExt sampleOverlap 0 ⟨1, ⟨7, 7⟩, ⟨7, 7⟩⟩).1 0 [some 1]
      sampleRect1 (by decide) (by decide)).1⟩

/-- C5 as stated fails: blocks 0 and 1 are both children of foundation 0 with bounds that
contain (7,7), and a mouse-down there sends nothing to block 1 and records only block 0
as a drag origin of the button. -/
theorem C5_counterexample :
    (sampleOverlap.founds 0).Children = [some 0, some 1]
      ∧ ((sampleOverlap.founds 0).ChildrenBounds (some 1)).map
          (fun r => sampleExt.ContainsCoord r ⟨7, 7⟩) = some true
      ∧ ((DoMouseDownEvent sampleExt sampleOverlap 0 ⟨1, ⟨7, 7⟩, ⟨7, 7⟩⟩).blocks 1).allEventsIn
          = []
      ∧ ((DoMouseDownEvent sampleExt sampleOverlap 0 ⟨1, ⟨7, 7⟩, ⟨7, 7⟩⟩).founds 0).DragOriginBlocks
          1 = some [some 0] := by
  decide

/-- A point that no bounds entry contains strikes no child. -/
theorem BlocksForCoord_nil (x : Ext S I) (fd : Foundation S I) (q : Coord S)
    (hq : ∀ c r, c ∈ fd.Children → fd.ChildrenBounds c = some r → x.ContainsCoord r q = false) :
    BlocksForCoord x fd q = [] := by
  rw [BlocksForCoord_eq_filter, List.filter_eq_nil_iff]
  intro c hc
  unfold struck
  cases hb : fd.ChildrenBounds c with
  | none => simp
  | some r => simp [hq c r hc hb]

/-- The hit test reads the children and their bounds only. -/
theorem BlocksForCoord_congr (x : Ext S I) (fd fd1 : Foundation S I) (q : Coord S)
    (hc : fd1.Children = fd.Children) (hb : fd1.ChildrenBounds = fd.ChildrenBounds) :
    BlocksForCoord x fd1 q = BlocksForCoord x fd q := by
  rw [BlocksForCoord_eq_filter, BlocksForCoord_eq_filter, hc]
  congr 1
  funext c
  simp [struck, hb]

/-- C2 (amended): drag-cancel.  Child A has bounds R in f.ChildrenBounds and is the first
child of f.Children whose bounds contain P; the button has no recorded drag origins; Q
lies in no child's bounds.  Then DoMouseDownEvent at P followed by DoMouseUpEvent at Q
for that button returns, and has sent to A's input channel exactly one mouse-down with
location P - R.Min followed by exactly one mouse-up with location Q - R.Min, and nothing
to any other block. -/
theorem C2_drag_cancel (x : Ext S I) [Sub S] [Zero S] (w : World S I) (f a : Nat)
    (R : Rect S) (rest : List BlockPtr) (ed : MouseDownEvent S) (eu : MouseUpEvent S)
    (hR : (w.founds f).ChildrenBounds (some a) = some R)
    (hfirst : BlocksForCoord x (w.founds f) ed.Loc = some a :: rest)
    (hno : (w.founds f).DragOriginBlocks ed.Which = none
      ∨ (w.founds f).DragOriginBlocks ed.Which = some [])
    (hQ : ∀ c r, c ∈ (w.founds f).Children → (w.founds f).ChildrenBounds c = some r →
      x.ContainsCoord r eu.Loc = false)
    (hbtn : eu.Which = ed.Which) :
    ∃ w2, DoMouseUpEvent x (DoMouseDownEvent x w f ed) f eu = some w2
      ∧ (w2.blocks a).allEventsIn
          = (w.blocks a).allEventsIn
              ++ [Event.down { ed with Loc := ⟨ed.Loc.X - R.Min.X, ed.Loc.Y - R.Min.Y⟩ },
                  Event.up { eu with Loc := ⟨eu.Loc.X - R.Min.X, eu.Loc.Y - R.Min.Y⟩ }]
      ∧ ∀ j, j ≠ a → (w2.blocks j).allEventsIn = (w.blocks j).allEventsIn := by
  have hgetD : (((w.founds f).DragOriginBlocks ed.Which).getD []) = [] := by
    rcases hno with h | h <;> simp [h]
  have hdown := DoMouseDownEvent_eq x w f ed
  rw [hfirst] at hdown
  simp only [hR, Option.getD_some, hgetD, List.nil_append] at hdown
  have hch : ((DoMouseDownEvent x w f ed).founds f).Children = (w.founds f).Children := by
    rw [hdown]; simp [World.sendEvent, World.setBlock, World.setFound]
  have hcb : ((DoMouseDownEvent x w f ed).founds f).ChildrenBounds
      = (w.founds f).ChildrenBounds := by
    rw [hdown]; simp [World.sendEvent, World.setBlock, World.setFound]
  have hdob : ((DoMouseDownEvent x w f ed).founds f).DragOriginBlocks eu.Which
      = some [some a] := by
    rw [hdown, hbtn]; simp [World.sendEvent, World.setBlock, World.setFound]
  have hmiss : BlocksForCoord x ((DoMouseDownEvent x w f ed).founds f) eu.Loc = [] := by
    rw [BlocksForCoord_congr x _ _ _ hch hcb]
    exact BlocksForCoord_nil x _ _ hQ
  have hhit := DoMouseUpEvent_hit_eq x (DoMouseDownEvent x w f ed) f eu
  rw [hmiss] at hhit
  unfold DoMouseUpEvent
  simp only [hhit, hdob, DoMouseUpEvent.origins, hcb, hR, Option.getD_some,
    Bool.false_eq_true, if_false]
  refine ⟨_, rfl, ?_, ?_⟩
  · rw [hdown]
    simp [World.sendEvent, World.setBlock, World.setFound]
  · intro j hj
    rw [hdown]
    simp [World.sendEvent, World.setBlock, World.setFound, Function.update_noteq hj]

theorem C2_drag_cancel_witness :
    ∃ w2, DoMouseUpEvent sampleExt
        (DoMouseDownEvent sampleExt sampleOverlap 0 ⟨1, ⟨7, 7⟩, ⟨7, 7⟩⟩) 0
        ⟨1, ⟨50, 50⟩, ⟨50, 50⟩⟩ = some w2
      ∧ (w2.blocks 0).allEventsIn
          = (sampleOverlap.blocks 0).allEventsIn
              ++ [Event.down ⟨1, ⟨7, 7⟩, ⟨7 - 0, 7 - 0⟩⟩,
                  Event.up ⟨1, ⟨50, 50⟩, ⟨50 - 0, 50 - 0⟩⟩]
      ∧ ∀ j, j ≠ 0 → (w2.blocks j).allEventsIn = (sampleOverlap.blocks j).allEventsIn :=
  C2_drag_cancel sampleExt sampleOverlap 0 0 sampleRect1 [some 1] ⟨1, ⟨7, 7⟩, ⟨7, 7⟩⟩
    ⟨1, ⟨50, 50⟩, ⟨50, 50⟩⟩ (by decide) (by decide) (Or.inl (by decide))
    (by
      intro c r hc hb
      have hch : (sampleOverlap.founds 0).Children = [some 0, some 1] := by decide
      rw [hch] at hc
      simp only [List.mem_cons, List.mem_singleton, List.not_mem_nil, or_false] at hc
      rcases hc with rfl | rfl
      · have h0 : (sampleOverlap.founds 0).ChildrenBounds (some 0) = some sampleRect1 := by
          decide
        rw [h0] at hb
        cases hb
        decide
      · have h1 : (sampleOverlap.founds 0).ChildrenBounds (some 1) = some sampleRect2 := by
          decide
        rw [h1] at hb
        cases hb
        decide)
    rfl

/-- C2 as stated fails: block 1 is a child of foundation 0 whose bounds contain P = (7,7),
the button has no drag origins and Q = (50,50) lies in no child's bounds, yet the
mouse-down at P and the mouse-up at Q send nothing to block 1: both go to block 0, which
comes first in f.Children and whose bounds contain P as well. -/
theorem C2_counterexample :
    ((sampleOverlap.founds 0).ChildrenBounds (some 1)).map
        (fun r => sampleExt.ContainsCoord r ⟨7, 7⟩) = some true
      ∧ (sampleOverlap.founds 0).DragOriginBlocks 1 = none
      ∧ BlocksForCoord sampleExt (sampleOverlap.founds 0) (⟨50, 50⟩ : Coord Int) = []
      ∧ (DoMouseUpEvent sampleExt
            (DoMouseDownEvent sampleExt sampleOverlap 0 ⟨1, ⟨7, 7⟩, ⟨7, 7⟩⟩) 0
            ⟨1, ⟨50, 50⟩, ⟨50, 50⟩⟩).map
          (fun w2 => ((w2.blocks 1).allEventsIn, (w2.blocks 0).allEventsIn))
          = some ([], [Event.down ⟨1, ⟨7, 7⟩, ⟨7, 7⟩⟩, Event.up ⟨1, ⟨50, 50⟩, ⟨50, 50⟩⟩]) := by
  decide

/-! ## PlaceBlock and RemoveBlock -/

theorem PlaceBlock_eq (w : World S I) (f i : Nat) (bounds : Rect S) :
    PlaceBlock w f (some i) bounds
      = (PlaceBlock.attach w f i).map (fun w1 => PlaceBlock.finish w1 f i bounds) := by
  unfold PlaceBlock PlaceBlock.attach
  dsimp only
  cases hp : (w.blocks i).Parent with
  | none => rfl
  | some p =>
    by_cases hpf : p = f
    · simp [hpf, PlaceBlock.finish]
    · simp only [hpf, ne_eq, not_false_eq_true, if_true]
      cases RemoveBlock w p (some i) with
      | none => rfl
      | some wa => rfl

theorem RemoveBlock_eq (w : World S I) (f i : Nat) :
    RemoveBlock w f (some i)
      = if (w.blocks i).Parent ≠ some f then some w
        else (closeChan w (w.blocks i).Compositor).map (fun w1 => RemoveBlock.detach w1 f i) := by
  unfold RemoveBlock
  dsimp only
  by_cases hp : (w.blocks i).Parent = some f
  · simp only [hp, ne_eq, not_true_eq_false, if_false]
    cases closeChan w (w.blocks i).Compositor with
    | none => rfl
    | some w1 => rfl
  · simp [hp]

/-- What the statements of RemoveBlock after the close change. -/
theorem RemoveBlock.detach_spec (w1 : World S I) (f i : Nat) :
    (RemoveBlock.detach w1 f i).closed = w1.closed
      ∧ (RemoveBlock.detach w1 f i).nextChan = w1.nextChan
      ∧ ((RemoveBlock.detach w1 f i).blocks i).Parent = none
      ∧ ((RemoveBlock.detach w1 f i).blocks i).Compositor = none
      ∧ ((RemoveBlock.detach w1 f i).blocks i).allEventsIn = (w1.blocks i).allEventsIn
      ∧ (∀ j, j ≠ i → (RemoveBlock.detach w1 f i).blocks j = w1.blocks j)
      ∧ (∀ g, ((RemoveBlock.detach w1 f i).founds g).Children = (w1.founds g).Children
          ∧ ((RemoveBlock.detach w1 f i).founds g).ChildrenLastBuffers
              = (w1.founds g).ChildrenLastBuffers
          ∧ ((RemoveBlock.detach w1 f i).founds g).DragOriginBlocks
              = (w1.founds g).DragOriginBlocks)
      ∧ ((RemoveBlock.detach w1 f i).founds f).ChildrenBounds
          = Function.update (w1.founds f).ChildrenBounds (some i) none
      ∧ (∀ g, g ≠ f → ((RemoveBlock.detach w1 f i).founds g).ChildrenBounds
          = (w1.founds g).ChildrenBounds)
      ∧ ((RemoveBlock.detach w1 f i).founds f).Redraw
          = match (w1.founds f).ChildrenBounds (some i) with
            | some R => (w1.founds f).Redraw ++ [⟨R⟩]
            | none => (w1.founds f).Redraw := by
  unfold RemoveBlock.detach
  dsimp only
  have hsb : ∀ (v : World S I) (blk : Block S I), (v.setBlock i blk).founds = v.founds :=
    fun _ _ => rfl
  cases hb : (w1.founds f).ChildrenBounds (some i) with
  | none =>
    simp only [hsb, hb]
    refine ⟨rfl, rfl, ?_, ?_, ?_, ?_, ?_, ?_, ?_, ?_⟩
    · simp [World.setBlock, World.setFound]
    · simp [World.setBlock, World.setFound]
    · simp [World.setBlock, World.setFound]
    · intro j hj
      simp [World.setBlock, World.setFound, Function.update_noteq hj]
    · intro g
      by_cases hg : g = f
      · subst hg; simp [World.setBlock, World.setFound]
      · simp [World.setBlock, World.setFound, Function.update_noteq hg]
    · simp [World.setBlock, World.setFound]
    · intro g hg
      simp [World.setBlock, World.setFound, Function.update_noteq hg]
    · simp [World.setBlock, World.setFound]
  | some R =>
    simp only [hsb, hb]
    refine ⟨rfl, rfl, ?_, ?_, ?_, ?_, ?_, ?_, ?_, ?_⟩
    · simp [World.setBlock, World.setFound]
    · simp [World.setBlock, World.setFound]
    · simp [World.setBlock, World.setFound]
    · intro j hj
      simp [World.setBlock, World.setFound, Function.update_noteq hj]
    · intro g
      by_cases hg : g = f
      · subst hg; simp [World.setBlock, World.setFound]
      · simp [World.setBlock, World.setFound, Function.update_noteq hg]
    · simp [World.setBlock, World.setFound]
    · intro g hg
      simp [World.setBlock, World.setFound, Function.update_noteq hg]
    · simp [World.setBlock, World.setFound, RedrawEventChan.Stack]

/-- What RemoveBlock does when b.Parent == f and b.Compositor holds an open channel. -/
theorem RemoveBlock_owned (w : World S I) (f i c : Nat)
    (hp : (w.blocks i).Parent = some f) (hc : (w.blocks i).Compositor = some c)
    (hcl : c ∉ w.closed) :
    ∃ w1, RemoveBlock w f (some i) = some w1
      ∧ w1.closed = c :: w.closed ∧ w1.nextChan = w.nextChan
      ∧ (w1.blocks i).Parent = none ∧ (w1.blocks i).Compositor = none
      ∧ (w1.blocks i).allEventsIn = (w.blocks i).allEventsIn
      ∧ (∀ j, j ≠ i → w1.blocks j = w.blocks j)
      ∧ (∀ g, (w1.founds g).Children = (w.founds g).Children
          ∧ (w1.founds g).ChildrenLastBuffers = (w.founds g).ChildrenLastBuffers
          ∧ (w1.founds g).DragOriginBlocks = (w.founds g).DragOriginBlocks)
      ∧ (w1.founds f).ChildrenBounds
          = Function.update (w.founds f).ChildrenBounds (some i) none
      ∧ (∀ g, g ≠ f → (w1.founds g).ChildrenBounds = (w.founds g).ChildrenBounds)
      ∧ (w1.founds f).Redraw
          = match (w.founds f).ChildrenBounds (some i) with
            | some R => (w.founds f).Redraw ++ [⟨R⟩]
            | none => (w.founds f).Redraw := by
  rw [RemoveBlock_eq]
  simp only [hp, ne_eq, not_true_eq_false, if_false, hc, closeChan, hcl, Option.map_some']
  exact ⟨_, rfl, RemoveBlock.detach_spec _ f i⟩

/-- The ways RemoveBlock returns. -/
theorem RemoveBlock_some (w w1 : World S I) (f : Nat) (b : BlockPtr)
    (h : RemoveBlock w f b = some w1) :
    ∃ i, b = some i ∧
      (((w.blocks i).Parent ≠ some f ∧ w1 = w)
        ∨ ((w.blocks i).Parent = some f
            ∧ ∃ c, (w.blocks i).Compositor = some c ∧ c ∉ w.closed)) := by
  cases b with
  | none => simp [RemoveBlock] at h
  | some i =>
    refine ⟨i, rfl, ?_⟩
    by_cases hp : (w.blocks i).Parent = some f
    · right
      refine ⟨hp, ?_⟩
      cases hc : (w.blocks i).Compositor with
      | none => simp [RemoveBlock, hp, hc, closeChan] at h
      | some c =>
        refine ⟨c, rfl, ?_⟩
        intro hcl
        simp [RemoveBlock, hp, hc, closeChan, hcl] at h
    · left
      refine ⟨hp, ?_⟩
      simp [RemoveBlock, hp] at h
      exact h.symm

/-- RemoveBlock changes neither the children, nor the last buffers, nor the drag origins
of any foundation. -/
theorem RemoveBlock_frame (w w1 : World S I) (f : Nat) (b : BlockPtr)
    (h : RemoveBlock w f b = some w1) (g : Nat) :
    (w1.founds g).Children = (w.founds g).Children
      ∧ (w1.founds g).ChildrenLastBuffers = (w.founds g).ChildrenLastBuffers
      ∧ (w1.founds g).DragOriginBlocks = (w.founds g).DragOriginBlocks := by
  obtain ⟨i, rfl, hcase⟩ := RemoveBlock_some w w1 f b h
  rcases hcase with ⟨_, rfl⟩ | ⟨hp, c, hc, hcl⟩
  · exact ⟨rfl, rfl, rfl⟩
  · obtain ⟨w2, hw2, _, _, _, _, _, _, hfr, _⟩ := RemoveBlock_owned w f i c hp hc hcl
    rw [h] at hw2
    cases hw2
    exact hfr g

/-- What the second half of PlaceBlock changes. -/
theorem PlaceBlock.finish_spec (w1 : World S I) (f i : Nat) (bounds : Rect S) :
    (PlaceBlock.finish w1 f i bounds).closed = w1.closed
      ∧ (PlaceBlock.finish w1 f i bounds).nextChan = w1.nextChan + 1
      ∧ ((PlaceBlock.finish w1 f i bounds).blocks i).Parent = (w1.blocks i).Parent
      ∧ ((PlaceBlock.finish w1 f i bounds).blocks i).Compositor = some w1.nextChan
      ∧ (∀ j, j ≠ i → (PlaceBlock.finish w1 f i bounds).blocks j = w1.blocks j)
      ∧ (∀ g, ((PlaceBlock.finish w1 f i bounds).founds g).Children = (w1.founds g).Children
          ∧ ((PlaceBlock.finish w1 f i bounds).founds g).ChildrenLastBuffers
              = (w1.founds g).ChildrenLastBuffers
          ∧ ((PlaceBlock.finish w1 f i bounds).founds g).DragOriginBlocks
              = (w1.founds g).DragOriginBlocks)
      ∧ ((PlaceBlock.finish w1 f i bounds).founds f).ChildrenBounds
          = Function.update (w1.founds f).ChildrenBounds (some i) (some bounds)
      ∧ (∀ g, g ≠ f → ((PlaceBlock.finish w1 f i bounds).founds g).ChildrenBounds
          = (w1.founds g).ChildrenBounds) := by
  refine ⟨rfl, rfl, ?_, ?_, ?_, ?_, ?_, ?_⟩
  · simp [PlaceBlock.finish, World.setBlock, World.setFound]
  · simp [PlaceBlock.finish, World.setBlock, World.setFound]
  · intro j hj
    simp [PlaceBlock.finish, World.setBlock, World.setFound, Function.update_noteq hj]
  · intro g
    by_cases hg : g = f
    · subst hg; simp [PlaceBlock.finish, World.setBlock, World.setFound]
    · simp [PlaceBlock.finish, World.setBlock, World.setFound, Function.update_noteq hg]
  · simp [PlaceBlock.finish, World.setBlock, World.setFound]
  · intro g hg
    simp [PlaceBlock.finish, World.setBlock, World.setFound, Function.update_noteq hg]

theorem C3_DoCompositeBlockRequest_witness :
    (DoCompositeBlockRequest sampleExt sampleOverlap 0 ⟨[9], some 0⟩).isSome = true
      ∧ (sampleComposited.founds 0).ChildrenLastBuffers (some 0) = some [9]
      ∧ (sampleComposited.founds 0).Buffer
          = some (sampleExt.Draw
              (sampleExt.PrepareBuffer (sampleOverlap.founds 0).Size
                (sampleOverlap.founds 0).Buffer)
              (sampleExt.RectangleForRect sampleRect1) [9] ⟨0, 0⟩ Op.Over) :=
  ⟨(C3_DoCompositeBlockRequest sampleExt sampleOverlap 0 (some 0) [9] sampleRect1
      (by decide)).1 (by decide),
    ((C3_DoCompositeBlockRequest sampleExt sampleOverlap 0 (some 0) [9] sampleRect1
      (by decide)).2 sampleComposited rfl).1,
    ((C3_DoCompositeBlockRequest sampleExt sampleOverlap 0 (some 0) [9] sampleRect1
      (by decide)).2 sampleComposited rfl).2.1⟩

/-- C7 (amended): for a block b with b.Parent == f, f.RemoveBlock(b) returns exactly when
b.Compositor holds an open channel, and then b is not a key of f.ChildrenBounds, b.Parent
and b.Compositor are nil, the channel is closed, and a redraw of the former bounds of b
was scheduled on f exactly when b had a bounds entry; f.ChildrenLastBuffers is left as it
was, so a buffer cached for b stays in it. -/
theorem C7_RemoveBlock_owned (w : World S I) (f b : Nat)
    (hp : (w.blocks b).Parent = some f) :
    ((RemoveBlock w f (some b)).isSome = true
        ↔ ∃ c, (w.blocks b).Compositor = some c ∧ c ∉ w.closed)
      ∧ ∀ w1, RemoveBlock w f (some b) = some w1 →
          (w1.founds f).ChildrenBounds (some b) = none
            ∧ (w1.founds f).ChildrenLastBuffers = (w.founds f).ChildrenLastBuffers
            ∧ (w1.blocks b).Parent = none
            ∧ (w1.blocks b).Compositor = none
            ∧ (∀ c, (w.blocks b).Compositor = some c → c ∈ w1.closed)
            ∧ (w1.founds f).Redraw
                = match (w.founds f).ChildrenBounds (some b) with
                  | some R => (w.founds f).Redraw ++ [⟨R⟩]
                  | none => (w.founds f).Redraw := by
  constructor
  · constructor
    · intro h
      obtain ⟨w1, hw1⟩ := Option.isSome_iff_exists.mp h
      obtain ⟨i, hi, hcase⟩ := RemoveBlock_some w w1 f (some b) hw1
      cases hi
      rcases hcase with ⟨hne, _⟩ | ⟨_, hc⟩
      · exact absurd hp hne
      · exact hc
    · rintro ⟨c, hc, hcl⟩
      obtain ⟨w1, hw1, _⟩ := RemoveBlock_owned w f b c hp hc hcl
      rw [hw1]; rfl
  · intro w1 hw1
    obtain ⟨i, hi, hcase⟩ := RemoveBlock_some w w1 f (some b) hw1
    cases hi
    rcases hcase with ⟨hne, _⟩ | ⟨_, c, hc, hcl⟩
    · exact absurd hp hne
    · obtain ⟨w2, hw2, h1, _, h3, h4, _, _, h7, h8, _, h10⟩ :=
        RemoveBlock_owned w f b c hp hc hcl
      rw [hw1] at hw2
      cases hw2
      refine ⟨by rw [h8]; simp, (h7 f).2.1, h3, h4, ?_, h10⟩
      intro c1 hc1
      rw [hc] at hc1
      cases hc1
      rw [h1]
      exact List.mem_cons_self _ _

theorem C7_RemoveBlock_owned_witness :
    (sampleComposited.blocks 0).Parent = some 0
      ∧ ((RemoveBlock sampleComposited 0 (some 0)).isSome = true
          ↔ ∃ c, (sampleComposited.blocks 0).Compositor = some c ∧ c ∉ sampleComposited.closed)
      ∧ (sampleRemoved.founds 0).ChildrenBounds (some 0) = none
      ∧ (sampleRemoved.founds 0).ChildrenLastBuffers
          = (sampleComposited.founds 0).ChildrenLastBuffers
      ∧ (sampleRemoved.blocks 0).Parent = none :=
  ⟨by decide, (C7_RemoveBlock_owned sampleComposited 0 0 (by decide)).1,
    ((C7_RemoveBlock_owned sampleComposited 0 0 (by decide)).2 sampleRemoved rfl).1,
    ((C7_RemoveBlock_owned sampleComposited 0 0 (by decide)).2 sampleRemoved rfl).2.1,
    ((C7_RemoveBlock_owned sampleComposited 0 0 (by decide)).2 sampleRemoved rfl).2.2.1⟩

/-- C7 as stated fails: block 0 has foundation 0 as its parent, a composite message from it
with the buffer [9] was processed, and after RemoveBlock the buffer is still the entry of
block 0 in f.ChildrenLastBuffers, while the bounds entry is gone. -/
theorem C7_counterexample :
    (sampleComposited.blocks 0).Parent = some 0
      ∧ (RemoveBlock sampleComposited 0 (some 0)).map
          (fun w => ((w.founds 0).ChildrenLastBuffers (some 0),
            (w.founds 0).ChildrenBounds (some 0), (w.blocks 0).Parent))
          = some (some [9], none, none) := by
  decide

/-! ## Drag origins -/

theorem PlaceBlock.attach_frame (w w1 : World S I) (f i : Nat)
    (h : PlaceBlock.attach w f i = some w1) (g : Nat) :
    (w1.founds g).ChildrenLastBuffers = (w.founds g).ChildrenLastBuffers
      ∧ (w1.founds g).DragOriginBlocks = (w.founds g).DragOriginBlocks := by
  unfold PlaceBlock.attach at h
  cases hp : (w.blocks i).Parent with
  | none =>
    simp only [hp, Option.some.injEq] at h
    subst h
    by_cases hg : g = f
    · subst hg; simp [World.setBlock, World.setFound]
    · simp [World.setBlock, World.setFound, Function.update_noteq hg]
  | some p =>
    simp only [hp] at h
    by_cases hpf : p = f
    · simp only [hpf, ne_eq, not_true_eq_false, if_false, Option.some.injEq] at h
      subst h
      exact ⟨rfl, rfl⟩
    · simp only [hpf, ne_eq, not_false_eq_true, if_true] at h
      cases hr : RemoveBlock w p (some i) with
      | none => simp [hr] at h
      | some wa =>
        simp only [hr, Option.some.injEq] at h
        subst h
        have hfr := RemoveBlock_frame w wa p (some i) hr g
        exact ⟨hfr.2.1, hfr.2.2⟩

theorem PlaceBlock_frame (w w1 : World S I) (f : Nat) (b : BlockPtr) (bounds : Rect S)
    (h : PlaceBlock w f b bounds = some w1) (g : Nat) :
    (w1.founds g).ChildrenLastBuffers = (w.founds g).ChildrenLastBuffers
      ∧ (w1.founds g).DragOriginBlocks = (w.founds g).DragOriginBlocks := by
  cases b with
  | none => simp [PlaceBlock] at h
  | some i =>
    rw [PlaceBlock_eq] at h
    cases ha : PlaceBlock.attach w f i with
    | none => simp [ha] at h
    | some wa =>
      simp only [ha, Option.map_some', Option.some.injEq] at h
      subst h
      have h1 := PlaceBlock.attach_frame w wa f i ha g
      have h2 := (PlaceBlock.finish_spec wa f i bounds).2.2.2.2.2.1 g
      exact ⟨h2.2.1.trans h1.1, h2.2.2.trans h1.2⟩

theorem DoRedraw.loop_frame [Sub S] (x : Ext S I) (f : Nat) (e : RedrawEvent S)
    (l : List BlockPtr) :
    ∀ w w1 : World S I, DoRedraw.loop x f e w l = some w1 →
      ∀ g, (w1.founds g).DragOriginBlocks = (w.founds g).DragOriginBlocks := by
  induction l with
  | nil =>
    intro w w1 h g
    simp [DoRedraw.loop] at h
    rw [h]
  | cons child rest ih =>
    intro w w1 h g
    unfold DoRedraw.loop at h
    cases hb : (w.founds f).ChildrenBounds child with
    | none =>
      simp only [hb] at h
      exact ih w w1 h g
    | some bbs =>
      simp only [hb] at h
      cases child with
      | none => simp at h
      | some i =>
        dsimp only at h
        rw [ih _ w1 h g]
        have hsb : ∀ blk : Block S I, (w.setBlock i blk).founds = w.founds := fun _ => rfl
        cases hl : (w.founds f).ChildrenLastBuffers (some i) with
        | none => simp only [hsb, hl]
        | some buf =>
          simp only [hsb, hl]
          rw [((CompositeBlockBuffer_founds x _ f (some i) buf).2.2.2 g).2.2.2.1, hsb]

theorem DoRedraw_frame [Sub S] (x : Ext S I) (w w1 : World S I) (f : Nat)
    (e : RedrawEvent S) (h : DoRedraw x w f e = some w1) (g : Nat) :
    (w1.founds g).DragOriginBlocks = (w.founds g).DragOriginBlocks := by
  unfold DoRedraw at h
  dsimp only at h
  cases hl : DoRedraw.loop x f e
      (w.setFound f { w.founds f with
        Buffer := some (x.DoPaint (w.founds f).Size
          (x.PrepareBuffer (w.founds f).Size (w.founds f).Buffer)) })
      ((w.setFound f { w.founds f with
        Buffer := some (x.DoPaint (w.founds f).Size
          (x.PrepareBuffer (w.founds f).Size (w.founds f).Buffer)) }).founds f).Children with
  | none => simp [hl] at h
  | some w2 =>
    simp only [hl] at h
    rw [(sendUp_some _ _ _ h).1, DoRedraw.loop_frame x f e _ _ _ hl g]
    by_cases hg : g = f
    · subst hg; simp [World.setFound]
    · simp [World.setFound, Function.update_noteq hg]

theorem DoCompositeBlockRequest_frame (x : Ext S I) (w w1 : World S I) (f : Nat)
    (cbr : CompositeBlockRequest I) (h : DoCompositeBlockRequest x w f cbr = some w1)
    (g : Nat) :
    (w1.founds g).DragOriginBlocks = (w.founds g).DragOriginBlocks := by
  unfold DoCompositeBlockRequest at h
  dsimp only at h
  rw [(sendUp_some _ _ _ h).1,
    ((CompositeBlockBuffer_founds x _ f cbr.Block cbr.Buffer).2.2.2 g).2.2.2.1]
  by_cases hg : g = f
  · subst hg; simp [World.setFound]
  · simp [World.setFound, Function.update_noteq hg]

theorem DoMouseDownEvent_frame (x : Ext S I) [Sub S] [Zero S] (w : World S I) (f : Nat)
    (e : MouseDownEvent S) (g : Nat) (k : Button) (l : List BlockPtr)
    (h : (w.founds g).DragOriginBlocks k = some l) :
    ∃ t, ((DoMouseDownEvent x w f e).founds g).DragOriginBlocks k = some (l ++ t) := by
  rw [DoMouseDownEvent_eq]
  cases hh : BlocksForCoord x (w.founds f) e.Loc with
  | nil => exact ⟨[], by simpa using h⟩
  | cons bl rest =>
    cases bl with
    | none => exact ⟨[], by simpa using h⟩
    | some i =>
      dsimp only
      rw [(sendEvent_founds _ i _).1]
      by_cases hg : g = f
      · subst hg
        by_cases hk : k = e.Which
        · subst hk
          exact ⟨[some i], by simp [World.setFound, h]⟩
        · exact ⟨[], by simp [World.setFound, Function.update_noteq hk, h]⟩
      · exact ⟨[], by simp [World.setFound, Function.update_noteq hg, h]⟩

/-- C8: DoMouseUpEvent(e) clears the drag origins of e.Which and of no other button: it
returns whenever no nil block is among the origins of e.Which, and every return leaves
f.DragOriginBlocks without an entry for e.Which (whether or not a child was struck or
an origin existed), the entry of every other button and the entries of every other
foundation being unchanged.  PlaceBlock, RemoveBlock, DoResizeEvent, DoRedraw and
DoCompositeBlockRequest leave every entry of every foundation unchanged, and
DoMouseDownEvent only appends to an entry. -/
theorem C8_drag_origins (x : Ext S I) [Sub S] [Zero S] (w : World S I) (f : Nat) :
    (∀ e : MouseUpEvent S,
        ((∀ l, (w.founds f).DragOriginBlocks e.Which = some l → none ∉ l) →
          (DoMouseUpEvent x w f e).isSome = true)
        ∧ ∀ w1, DoMouseUpEvent x w f e = some w1 →
            (w1.founds f).DragOriginBlocks e.Which = none
              ∧ (∀ k, k ≠ e.Which →
                  (w1.founds f).DragOriginBlocks k = (w.founds f).DragOriginBlocks k)
              ∧ ∀ g, g ≠ f → (w1.founds g).DragOriginBlocks = (w.founds g).DragOriginBlocks)
      ∧ (∀ b bounds w1, PlaceBlock w f b bounds = some w1 →
          ∀ g, (w1.founds g).DragOriginBlocks = (w.founds g).DragOriginBlocks)
      ∧ (∀ b w1, RemoveBlock w f b = some w1 →
          ∀ g, (w1.founds g).DragOriginBlocks = (w.founds g).DragOriginBlocks)
      ∧ (∀ (e : MouseDownEvent S) g k l, (w.founds g).DragOriginBlocks k = some l →
          ∃ t, ((DoMouseDownEvent x w f e).founds g).DragOriginBlocks k = some (l ++ t))
      ∧ (∀ (e : ResizeEvent S) g,
          ((DoResizeEvent x w f e).founds g).DragOriginBlocks = (w.founds g).DragOriginBlocks)
      ∧ (∀ (e : RedrawEvent S) w1, DoRedraw x w f e = some w1 →
          ∀ g, (w1.founds g).DragOriginBlocks = (w.founds g).DragOriginBlocks)
      ∧ (∀ cbr w1, DoCompositeBlockRequest x w f cbr = some w1 →
          ∀ g, (w1.founds g).DragOriginBlocks = (w.founds g).DragOriginBlocks) := by
  refine ⟨?_, ?_, ?_, ?_, ?_, ?_, ?_⟩
  · intro e
    have hf := DoMouseUpEvent_hit_founds x w f e
    constructor
    · intro hnil
      unfold DoMouseUpEvent
      dsimp only
      rw [hf]
      cases ho : (w.founds f).DragOriginBlocks e.Which with
      | none => rfl
      | some origins =>
        dsimp only
        have hs := DoMouseUpEvent.origins_isSome f e
          (InvokeOnBlocksUnder x (w.founds f) e.Loc (DoMouseUpEvent.foo f e)
            (w, fun _ => false)).2 origins
          (fun o ho1 hon => absurd (hon ▸ ho1) (hnil origins ho))
          (InvokeOnBlocksUnder x (w.founds f) e.Loc (DoMouseUpEvent.foo f e)
            (w, fun _ => false)).1
        obtain ⟨w2, hw2⟩ := Option.isSome_iff_exists.mp hs
        rw [hw2]; rfl
    · intro w1 h
      unfold DoMouseUpEvent at h
      dsimp only at h
      rw [hf] at h
      have hkey : ∀ w2 : World S I, w2.founds = w.founds →
          w1 = w2.setFound f { w2.founds f with
            DragOriginBlocks := Function.update (w2.founds f).DragOriginBlocks e.Which none } →
          (w1.founds f).DragOriginBlocks e.Which = none
            ∧ (∀ k, k ≠ e.Which →
                (w1.founds f).DragOriginBlocks k = (w.founds f).DragOriginBlocks k)
            ∧ ∀ g, g ≠ f → (w1.founds g).DragOriginBlocks = (w.founds g).DragOriginBlocks := by
        intro w2 hw2 hw1
        subst hw1
        refine ⟨by simp [World.setFound], ?_, ?_⟩
        · intro k hk
          simp [World.setFound, Function.update_noteq hk, hw2]
        · intro g hg
          simp [World.setFound, Function.update_noteq hg, hw2]
      cases ho : (w.founds f).DragOriginBlocks e.Which with
      | none =>
        simp only [ho, Option.some.injEq] at h
        exact hkey _ hf h.symm
      | some origins =>
        simp only [ho] at h
        cases hl : DoMouseUpEvent.origins f e
            (InvokeOnBlocksUnder x (w.founds f) e.Loc (DoMouseUpEvent.foo f e)
              (w, fun _ => false)).2
            (InvokeOnBlocksUnder x (w.founds f) e.Loc (DoMouseUpEvent.foo f e)
              (w, fun _ => false)).1 origins with
        | none => simp [hl] at h
        | some w2 =>
          simp only [hl, Option.some.injEq] at h
          exact hkey w2
            ((DoMouseUpEvent.origins_founds f e _ origins _ w2 hl).trans hf) h.symm
  · intro b bounds w1 h g
    exact (PlaceBlock_frame w w1 f b bounds h g).2
  · intro b w1 h g
    exact (RemoveBlock_frame w w1 f b h g).2.2
  · intro e g k l h
    exact DoMouseDownEvent_frame x w f e g k l h
  · intro e g
    unfold DoResizeEvent
    dsimp only
    by_cases hs : x.CoordEq e.Size (w.founds f).Size = true
    · simp [hs]
    · by_cases hg : g = f
      · subst hg; simp [hs, World.setFound]
      · simp [hs, World.setFound, Function.update_noteq hg]
  · intro e w1 h g
    exact DoRedraw_frame x w w1 f e h g
  · intro cbr w1 h g
    exact DoCompositeBlockRequest_frame x w w1 f cbr h g

theorem C8_drag_origins_witness :
    (DoMouseUpEvent sampleExt samplePressed 0 ⟨1, ⟨50, 50⟩, ⟨50, 50⟩⟩).isSome = true
      ∧ (samplePressed.founds 0).DragOriginBlocks 1 = some [some 0]
      ∧ (sampleReleased.founds 0).DragOriginBlocks 1 = none
      ∧ ∃ t, ((DoMouseDownEvent sampleExt samplePressed 0 ⟨1, ⟨7, 7⟩, ⟨7, 7⟩⟩).founds
          0).DragOriginBlocks 1 = some ([some 0] ++ t) :=
  ⟨((C8_drag_origins sampleExt samplePressed 0).1 ⟨1, ⟨50, 50⟩, ⟨50, 50⟩⟩).1
      (by
        intro l hl
        have h : (samplePressed.founds 0).DragOriginBlocks 1 = some [some 0] := by decide
        have hl1 : (samplePressed.founds 0).DragOriginBlocks 1 = some l := hl
        rw [h] at hl1
        cases hl1
        decide),
    by decide,
    (((C8_drag_origins sampleExt samplePressed 0).1 ⟨1, ⟨50, 50⟩, ⟨50, 50⟩⟩).2
      sampleReleased rfl).1,
    (C8_drag_origins sampleExt samplePressed 0).2.2.2.1 ⟨1, ⟨7, 7⟩, ⟨7, 7⟩⟩ 0 1 [some 0]
      (by decide)⟩

/-! ## Sequences of PlaceBlock and RemoveBlock: children and bounds -/

/-- The branch of PlaceBlock on a block whose parent is nil or f itself. -/
theorem PlaceBlock.attach_same_parent (w : World S I) (f b : Nat)
    (hpar : (w.blocks b).Parent = none ∨ (w.blocks b).Parent = some f)
    (hch : (w.blocks b).Parent = some f → some b ∈ (w.founds f).Children) :
    ∃ wa, PlaceBlock.attach w f b = some wa
      ∧ wa.closed = w.closed ∧ wa.nextChan = w.nextChan
      ∧ (wa.blocks b).Parent = some f
      ∧ (∀ j, j ≠ b → wa.blocks j = w.blocks j)
      ∧ (∀ g, (wa.founds g).ChildrenBounds = (w.founds g).ChildrenBounds)
      ∧ (∀ g p, p ∈ (w.founds g).Children → p ∈ (wa.founds g).Children)
      ∧ some b ∈ (wa.founds f).Children := by
  unfold PlaceBlock.attach
  rcases hpar with hp | hp
  · simp only [hp]
    refine ⟨_, rfl, rfl, rfl, ?_, ?_, ?_, ?_, ?_⟩
    · simp [World.setBlock]
    · intro j hj
      simp [World.setBlock, World.setFound, Function.update_noteq hj]
    · intro g
      by_cases hg : g = f
      · subst hg; simp [World.setBlock, World.setFound]
      · simp [World.setBlock, World.setFound, Function.update_noteq hg]
    · intro g p hpm
      by_cases hg : g = f
      · subst hg
        simp [World.setBlock, World.setFound, hpm]
      · simpa [World.setBlock, World.setFound, Function.update_noteq hg] using hpm
    · simp [World.setBlock, World.setFound]
  · simp only [hp, ne_eq, not_true_eq_false, if_false]
    exact ⟨w, rfl, rfl, rfl, hp, fun _ _ => rfl, fun _ => rfl, fun _ _ h => h, hch hp⟩

/-- PlaceBlock on a block whose parent is nil or f itself. -/
theorem PlaceBlock_same_parent (w : World S I) (f b : Nat) (bounds : Rect S)
    (hpar : (w.blocks b).Parent = none ∨ (w.blocks b).Parent = some f)
    (hch : (w.blocks b).Parent = some f → some b ∈ (w.founds f).Children) :
    ∃ w1, PlaceBlock w f (some b) bounds = some w1
      ∧ w1.closed = w.closed ∧ w1.nextChan = w.nextChan + 1
      ∧ (w1.blocks b).Parent = some f ∧ (w1.blocks b).Compositor = some w.nextChan
      ∧ (∀ j, j ≠ b → w1.blocks j = w.blocks j)
      ∧ (w1.founds f).ChildrenBounds
          = Function.update (w.founds f).ChildrenBounds (some b) (some bounds)
      ∧ (∀ g, g ≠ f → (w1.founds g).ChildrenBounds = (w.founds g).ChildrenBounds)
      ∧ (∀ g p, p ∈ (w.founds g).Children → p ∈ (w1.founds g).Children)
      ∧ some b ∈ (w1.founds f).Children := by
  obtain ⟨wa, ha, a1, a2, a3, a4, a5, a6, a7⟩ :=
    PlaceBlock.attach_same_parent w f b hpar hch
  obtain ⟨h1, h2, h3, h4, h5, h6, h7, h8⟩ := PlaceBlock.finish_spec wa f b bounds
  rw [PlaceBlock_eq, ha]
  refine ⟨_, rfl, h1.trans a1, by rw [h2, a2], h3.trans a3, by rw [h4, a2], ?_, ?_, ?_, ?_, ?_⟩
  · intro j hj
    rw [h5 j hj, a4 j hj]
  · rw [h7, a5 f]
  · intro g hg
    rw [h8 g hg, a5 g]
  · intro g p hpm
    rw [(h6 g).1]
    exact a6 g p hpm
  · rw [(h6 f).1]
    exact a7

theorem Inv_of_Initial (w : World S I) (h : Initial w) : Inv w := by
  obtain ⟨h1, h2, h3⟩ := h
  refine ⟨?_, ?_, ?_, ?_, h3⟩
  · intro f p hne
    exact absurd (h2 f p) hne
  · intro f b hp
    rw [h1 b] at hp
    cases hp
  · intro b hne
    exact absurd (h1 b) hne
  · intro b b1 hne
    exact absurd (h1 b) hne

theorem Inv_PlaceBlock (w : World S I) (f b : Nat) (bounds : Rect S) (hinv : Inv w)
    (hpar : (w.blocks b).Parent = none ∨ (w.blocks b).Parent = some f) :
    ∃ w1, PlaceBlock w f (some b) bounds = some w1 ∧ Inv w1 := by
  obtain ⟨I1, I2, I3, I4, I5⟩ := hinv
  obtain ⟨w1, hw1, p1, p2, p3, p4, p5, p6, p7, p8, p9⟩ :=
    PlaceBlock_same_parent w f b bounds hpar (fun h => (I2 f b h).2)
  have hother : ∀ g j, g ≠ f → (w.blocks j).Parent = some g → j ≠ b := by
    intro g j hg hj hjb
    subst hjb
    rcases hpar with h | h
    · rw [h] at hj; cases hj
    · rw [h] at hj; cases hj; exact hg rfl
  refine ⟨w1, hw1, ?_, ?_, ?_, ?_, ?_⟩
  · intro g p hne
    by_cases hg : g = f
    · subst hg
      rw [p6] at hne
      by_cases hp : p = some b
      · exact ⟨b, hp, p3⟩
      · rw [Function.update_noteq hp] at hne
        obtain ⟨j, hj, hjp⟩ := I1 g p hne
        have hjb : j ≠ b := fun h => hp (by rw [hj, h])
        exact ⟨j, hj, by rw [p5 j hjb]; exact hjp⟩
    · rw [p7 g hg] at hne
      obtain ⟨j, hj, hjp⟩ := I1 g p hne
      exact ⟨j, hj, by rw [p5 j (hother g j hg hjp)]; exact hjp⟩
  · intro g j hj
    by_cases hjb : j = b
    · subst hjb
      rw [p3] at hj
      cases hj
      exact ⟨by rw [p6]; simp, p9⟩
    · rw [p5 j hjb] at hj
      obtain ⟨h1, h2⟩ := I2 g j hj
      refine ⟨?_, p8 g _ h2⟩
      by_cases hg : g = f
      · subst hg
        rw [p6, Function.update_noteq (by simpa using hjb)]
        exact h1
      · rw [p7 g hg]
        exact h1
  · intro j hne
    by_cases hjb : j = b
    · subst hjb
      refine ⟨w.nextChan, p4, ?_, by rw [p2]; omega⟩
      rw [p1]
      intro h
      exact absurd (I5 _ h) (lt_irrefl _)
    · rw [p5 j hjb] at hne ⊢
      obtain ⟨c, hc, hcl, hlt⟩ := I3 j hne
      exact ⟨c, hc, by rw [p1]; exact hcl, by rw [p2]; omega⟩
  · intro j k hj hk heq
    by_cases hjb : j = b
    · by_cases hkb : k = b
      · rw [hjb, hkb]
      · exfalso
        rw [p5 k hkb] at hk heq
        obtain ⟨c, hc, _, hlt⟩ := I3 k hk
        rw [hjb, p4, hc] at heq
        cases heq
        exact lt_irrefl _ hlt
    · by_cases hkb : k = b
      · exfalso
        rw [p5 j hjb] at hj heq
        obtain ⟨c, hc, _, hlt⟩ := I3 j hj
        rw [hkb, p4, hc] at heq
        cases heq
        exact lt_irrefl _ hlt
      · rw [p5 j hjb] at hj heq
        rw [p5 k hkb] at hk heq
        exact I4 j k hj hk heq
  · intro c hc
    rw [p1] at hc
    rw [p2]
    have := I5 c hc
    omega

theorem Inv_RemoveBlock (w : World S I) (f b : Nat) (hinv : Inv w) :
    ∃ w1, RemoveBlock w f (some b) = some w1 ∧ Inv w1 := by
  by_cases hp : (w.blocks b).Parent = some f
  · obtain ⟨I1, I2, I3, I4, I5⟩ := hinv
    have hbne : (w.blocks b).Parent ≠ none := by rw [hp]; simp
    obtain ⟨c, hc, hcl, hlt⟩ := I3 b hbne
    obtain ⟨w1, hw1, r1, r2, r3, r4, _, r6, r7, r8, r9, _⟩ :=
      RemoveBlock_owned w f b c hp hc hcl
    refine ⟨w1, hw1, ?_, ?_, ?_, ?_, ?_⟩
    · intro g p hne
      by_cases hg : g = f
      · subst hg
        rw [r8] at hne
        by_cases hpb : p = some b
        · rw [hpb] at hne
          simp at hne
        · rw [Function.update_noteq hpb] at hne
          obtain ⟨j, hj, hjp⟩ := I1 g p hne
          have hjb : j ≠ b := fun h => hpb (by rw [hj, h])
          exact ⟨j, hj, by rw [r6 j hjb]; exact hjp⟩
      · rw [r9 g hg] at hne
        obtain ⟨j, hj, hjp⟩ := I1 g p hne
        have hjb : j ≠ b := by
          intro h
          subst h
          rw [hp] at hjp
          cases hjp
          exact hg rfl
        exact ⟨j, hj, by rw [r6 j hjb]; exact hjp⟩
    · intro g j hj
      have hjb : j ≠ b := by
        intro h
        subst h
        rw [r3] at hj
        cases hj
      rw [r6 j hjb] at hj
      obtain ⟨h1, h2⟩ := I2 g j hj
      refine ⟨?_, by rw [(r7 g).1]; exact h2⟩
      by_cases hg : g = f
      · subst hg
        rw [r8, Function.update_noteq (by simpa using hjb)]
        exact h1
      · rw [r9 g hg]
        exact h1
    · intro j hne
      have hjb : j ≠ b := by
        intro h
        subst h
        exact hne r3
      rw [r6 j hjb] at hne ⊢
      obtain ⟨c1, hc1, hcl1, hlt1⟩ := I3 j hne
      refine ⟨c1, hc1, ?_, by rw [r2]; exact hlt1⟩
      rw [r1]
      intro hmem
      rcases List.mem_cons.mp hmem with h | h
      · subst h
        exact hjb (I4 j b hne hbne (by rw [hc1, hc]))
      · exact hcl1 h
    · intro j k hj hk heq
      have hjb : j ≠ b := by
        intro h
        subst h
        exact hj r3
      have hkb : k ≠ b := by
        intro h
        subst h
        exact hk r3
      rw [r6 j hjb] at hj heq
      rw [r6 k hkb] at hk heq
      exact I4 j k hj hk heq
    · intro c1 hc1
      rw [r1] at hc1
      rw [r2]
      rcases List.mem_cons.mp hc1 with h | h
      · subst h; exact hlt
      · exact I5 c1 h
  · exact ⟨w, RemoveBlock_other_parent w f b hp, hinv⟩

theorem Inv_run (cs : List (Call S)) :
    ∀ w : World S I, Inv w → Call.noReparent w cs = true →
      ∃ w1, Call.run w cs = some w1 ∧ Inv w1 := by
  induction cs with
  | nil =>
    intro w hinv _
    exact ⟨w, rfl, hinv⟩
  | cons c cs ih =>
    intro w hinv hno
    unfold Call.noReparent at hno
    rw [Bool.and_eq_true] at hno
    obtain ⟨hc, hrest⟩ := hno
    have hstep : ∃ w1, Call.apply w c = some w1 ∧ Inv w1 := by
      cases c with
      | place f b bounds =>
        simp only [Bool.or_eq_true, decide_eq_true_eq] at hc
        exact Inv_PlaceBlock w f b bounds hinv hc
      | remove f b => exact Inv_RemoveBlock w f b hinv
    obtain ⟨w1, hw1, hinv1⟩ := hstep
    rw [hw1] at hrest
    obtain ⟨w2, hw2, hinv2⟩ := ih w1 hinv1 hrest
    refine ⟨w2, ?_, hinv2⟩
    unfold Call.run
    rw [hw1]
    exact hw2

/-- C1 (amended): after every sequence of PlaceBlock and RemoveBlock calls, applied to
initialized foundations and blocks that start with no parent, in which no block is placed
on a foundation while its parent is another foundation, every call returned and, for each
foundation f, a block is a key of f.ChildrenBounds if and only if it is an element of
f.Children whose Parent is f.  So every key of the bounds map is a child; a child that
was removed stays in f.Children without a bounds entry. -/
theorem C1_bounds_children (w : World S I) (cs : List (Call S)) (hinit : Initial w)
    (hno : Call.noReparent w cs = true) :
    ∃ w1, Call.run w cs = some w1
      ∧ ∀ f p, ((w1.founds f).ChildrenBounds p).isSome = true
          ↔ (p ∈ (w1.founds f).Children ∧ ∃ b, p = some b ∧ (w1.blocks b).Parent = some f) := by
  obtain ⟨w1, hw1, I1, I2, _⟩ := Inv_run cs w (Inv_of_Initial w hinit) hno
  refine ⟨w1, hw1, ?_⟩
  intro f p
  constructor
  · intro h
    have hne : (w1.founds f).ChildrenBounds p ≠ none := by
      intro hn
      rw [hn] at h
      cases h
    obtain ⟨b, hb, hpb⟩ := I1 f p hne
    exact ⟨by rw [hb]; exact (I2 f b hpb).2, b, hb, hpb⟩
  · rintro ⟨_, b, hb, hpb⟩
    rw [hb]
    exact Option.isSome_iff_ne_none.mpr (I2 f b hpb).1

theorem C1_bounds_children_witness :
    Initial sampleWorld
      ∧ Call.noReparent sampleWorld
          [Call.place 0 0 sampleRect1, Call.place 0 1 sampleRect2, Call.remove 0 0,
            Call.place 0 1 sampleRect1] = true
      ∧ ∃ w1, Call.run sampleWorld
          [Call.place 0 0 sampleRect1, Call.place 0 1 sampleRect2, Call.remove 0 0,
            Call.place 0 1 sampleRect1] = some w1
        ∧ ∀ f p, ((w1.founds f).ChildrenBounds p).isSome = true
          ↔ (p ∈ (w1.founds f).Children ∧ ∃ b, p = some b ∧ (w1.blocks b).Parent = some f) :=
  ⟨⟨fun _ => rfl, fun _ _ => rfl, fun _ h => absurd h (List.not_mem_nil _)⟩, by decide,
    C1_bounds_children sampleWorld
      [Call.place 0 0 sampleRect1, Call.place 0 1 sampleRect2, Call.remove 0 0,
        Call.place 0 1 sampleRect1]
      ⟨fun _ => rfl, fun _ _ => rfl, fun _ h => absurd h (List.not_mem_nil _)⟩ (by decide)⟩

/-- C1 as stated fails: after PlaceBlock and then RemoveBlock of block 0 on foundation 0,
the block is an element of f.Children and is not a key of f.ChildrenBounds. -/
theorem C1_counterexample :
    (Call.run sampleWorld [Call.place 0 0 sampleRect1, Call.remove 0 0]).map
        (fun w => ((w.founds 0).Children, (w.founds 0).ChildrenBounds (some 0)))
      = some ([some 0], none) := by
  decide

/-- The placement the amended C1 leaves out: block 0 is placed on foundation 1 and then
on foundation 0; PlaceBlock gives it a bounds entry in foundation 0 and makes that
foundation its parent without appending it to f.Children, which the branch for a block
without parent does. -/
theorem PlaceBlock_other_parent_example :
    (Call.run sampleWorld [Call.place 1 0 sampleRect1, Call.place 0 0 sampleRect2]).map
        (fun w => ((w.founds 0).Children, (w.founds 0).ChildrenBounds (some 0),
          (w.blocks 0).Parent))
      = some ([], some sampleRect2, some 0) := by
  decide

end Uik
